import Mathlib

/-!
# Splitly — verification of the receipt-extraction and split-allocation core

A shallow embedding, over exact rational arithmetic, of the parts of the
Splitly code base that the specification's testable properties talk about:

* the split-allocation engine (`computeExpenseSummary` in
  `imports/api/receiptParsers.ts` together with the final penny-rounding
  step `finalPerUserRows` in `imports/ui/blaze/pages/splitPage.js`);
* the totals reconciliation performed by `persistParsedReceipt`
  (`imports/api/bills.ts`);
* the shared text utilities (`skipLine`, `extractTotalsFromLines`,
  `extractPriceFromLine`, `createItem`, `cleanName`, `finalizeReceipt`)
  and the Walmart/generic text parsers (`imports/api/receiptParsers.ts`);
* the Gemini vision extraction retry loop (`imports/api/geminiOcr.ts`);
* the OCR trial loop (`imports/services/ocr/ocrService.js`);
* the image preprocessor (`imagePreprocessing.js`).

JavaScript numbers are modelled as exact rationals (`ℚ`); `toFixed(2)`
re-parsed by `Number(...)`/`parseFloat(...)` is modelled by `round2`.
Regular expressions are modelled by a small executable backtracking
matcher (`RE`, `reMatchList`) that mirrors JavaScript semantics for the
constructs the source uses: ordered alternation, greedy and lazy
repetition, character classes, capture groups, word boundaries, the
begin/end anchors, backreferences and negative lookahead.
-/

set_option maxRecDepth 20000

namespace Splitly

/-- `Number(x.toFixed(2))` / `parseFloat(x.toFixed(2))` on an exact rational:
round to the nearest cent, ties away from zero is not what JS does — the
ECMAScript `toFixed` tie rule picks the larger candidate, i.e. rounds
half toward +∞, which is exactly Mathlib's `round` (`⌊x + 1/2⌋`). -/
def round2 (x : ℚ) : ℚ := (round (x * 100) : ℤ) / 100

/-- A rational that is a whole number of cents. -/
def IsCent (q : ℚ) : Prop := ∃ n : ℤ, q * 100 = n

end Splitly

namespace Splitly

/-! ## A small JavaScript-style regular-expression matcher

Each regex literal of the source is transcribed into an `RE` value.
`reMatchList` enumerates the backtracking alternatives in JavaScript
preference order (ordered alternation, greedy repetition tries longer
first, lazy repetition shorter first), so the head of the list is the
match JavaScript would produce.  Repetition counters `{m,n}` are
desugared when the pattern is transcribed. -/

/-- Capture environment: group index ↦ captured characters. -/
def Caps := List (ℕ × List Char)

def capGet (caps : Caps) (i : ℕ) : List Char :=
  match List.find? (fun p => p.1 == i) caps with
  | some p => p.2
  | none => []

def capSet (caps : Caps) (i : ℕ) (v : List Char) : Caps := (i, v) :: caps

/-- JavaScript `\w`. -/
def isWordChar (c : Char) : Bool := c.isAlpha || c.isDigit || c == '_'

/-- JavaScript `\s` (the whitespace the source's patterns meet in practice). -/
def isSpaceChar (c : Char) : Bool := c == ' ' || c == '\t' || c == '\n' || c == '\r'

def ciEqChar (a b : Char) : Bool := a.toLower == b.toLower

inductive RE where
  | eps
  | cls (p : Char → Bool)
  | seq (a b : RE)
  | alt (a b : RE)
  | star (a : RE)
  | starL (a : RE)
  | opt (a : RE)
  | grp (i : ℕ) (a : RE)
  | bnd
  | bos
  | eos
  | bref (i : ℕ) (ci : Bool)
  | nla (a : RE)

/-- One backtracking state: remaining input, previous character
(for `\b`/`^`), captures. -/
abbrev MState := List Char × Option Char × Caps

/-- Greedy unrolling of `star`: each iteration must consume at least one
character (as in JavaScript, where an empty iteration ends the loop), so
`n := remaining length + 1` iterations are always enough. -/
def starGo (f : Option Char → List Char → Caps → List MState) :
    ℕ → Option Char → List Char → Caps → List MState
  | 0, prev, s, caps => [(s, prev, caps)]
  | n + 1, prev, s, caps =>
      ((f prev s caps).flatMap (fun st =>
        if st.1.length < s.length then starGo f n st.2.1 st.1 st.2.2 else [])) ++
      [(s, prev, caps)]

/-- Lazy unrolling of `starL`. -/
def starGoL (f : Option Char → List Char → Caps → List MState) :
    ℕ → Option Char → List Char → Caps → List MState
  | 0, prev, s, caps => [(s, prev, caps)]
  | n + 1, prev, s, caps =>
      (s, prev, caps) ::
      ((f prev s caps).flatMap (fun st =>
        if st.1.length < s.length then starGoL f n st.2.1 st.1 st.2.2 else []))

def ciStartsWith (pat s : List Char) : Bool :=
  match pat, s with
  | [], _ => true
  | _ :: _, [] => false
  | p :: ps, c :: cs => ciEqChar p c && ciStartsWith ps cs

def startsWithChars (pat s : List Char) : Bool :=
  match pat, s with
  | [], _ => true
  | _ :: _, [] => false
  | p :: ps, c :: cs => (p == c) && startsWithChars ps cs

/-- All ways `re` can match a front segment of `s`, in JavaScript
backtracking preference order. -/
def reMatchList : RE → Option Char → List Char → Caps → List MState
  | .eps, prev, s, caps => [(s, prev, caps)]
  | .cls p, _, s, caps =>
      match s with
      | [] => []
      | c :: rest => if p c then [(rest, some c, caps)] else []
  | .seq a b, prev, s, caps =>
      (reMatchList a prev s caps).flatMap (fun st => reMatchList b st.2.1 st.1 st.2.2)
  | .alt a b, prev, s, caps =>
      reMatchList a prev s caps ++ reMatchList b prev s caps
  | .star a, prev, s, caps => starGo (reMatchList a) (s.length + 1) prev s caps
  | .starL a, prev, s, caps => starGoL (reMatchList a) (s.length + 1) prev s caps
  | .opt a, prev, s, caps => reMatchList a prev s caps ++ [(s, prev, caps)]
  | .grp i a, prev, s, caps =>
      (reMatchList a prev s caps).map (fun st =>
        (st.1, st.2.1, capSet st.2.2 i (s.take (s.length - st.1.length))))
  | .bnd, prev, s, caps =>
      let lw := match prev with | none => false | some c => isWordChar c
      let rw := match s with | [] => false | c :: _ => isWordChar c
      if lw != rw then [(s, prev, caps)] else []
  | .bos, prev, s, caps => if prev.isNone then [(s, prev, caps)] else []
  | .eos, prev, s, caps => if s.isEmpty then [(s, prev, caps)] else []
  | .bref i ci, prev, s, caps =>
      let cap := capGet caps i
      if (if ci then ciStartsWith cap s else startsWithChars cap s) then
        [(s.drop cap.length,
          (if cap.isEmpty then prev else (s.take cap.length).getLast? ), caps)]
      else []
  | .nla a, prev, s, caps =>
      if (reMatchList a prev s caps).isEmpty then [(s, prev, caps)] else []

/-- Try to match at the current position; JavaScript keeps the first
backtracking success.  Returns consumed length and captures. -/
def matchHere (re : RE) (prev : Option Char) (s : List Char) : Option (ℕ × Caps) :=
  match reMatchList re prev s [] with
  | [] => none
  | st :: _ => some (s.length - st.1.length, st.2.2)

/-- Leftmost match: scan positions left to right.  Returns
(start index, length, captures). -/
def findGo (re : RE) (prev : Option Char) (s : List Char) (pos : ℕ) :
    Option (ℕ × ℕ × Caps) :=
  match matchHere re prev s with
  | some (len, caps) => some (pos, len, caps)
  | none =>
      match s with
      | [] => none
      | c :: rest => findGo re (some c) rest (pos + 1)

def reFind (re : RE) (s : List Char) : Option (ℕ × ℕ × Caps) := findGo re none s 0

/-- `regex.test(s)` / truthiness of `s.match(regex)`. -/
def reTest (re : RE) (s : List Char) : Bool := (reFind re s).isSome

/-- `s.matchAll(regex)` for a `/g` regex: non-overlapping matches scanned
left to right; a zero-length match advances by one.  `fuel` starts at
`s.length + 1`, which always suffices because every step consumes at
least one character. -/
def matchAllGo (re : RE) : ℕ → Option Char → List Char → ℕ → List (ℕ × ℕ × Caps)
  | 0, _, _, _ => []
  | fuel + 1, prev, s, pos =>
      match findGo re prev s pos with
      | none => []
      | some (idx, len, caps) =>
          let step := (idx - pos) + max len 1
          (idx, len, caps) ::
            matchAllGo re fuel ((s.take step).getLast? <|> prev) (s.drop step) (pos + step)

def reMatchAll (re : RE) (s : List Char) : List (ℕ × ℕ × Caps) :=
  matchAllGo re (s.length + 1) none s 0

/-- `s.replace(regex, repl)` for a non-global regex; `repl` builds the
replacement from the captures and the matched characters. -/
def replaceFirst (re : RE) (repl : Caps → List Char → List Char) (s : List Char) :
    List Char :=
  match reFind re s with
  | none => s
  | some (idx, len, caps) =>
      s.take idx ++ repl caps ((s.drop idx).take len) ++ s.drop (idx + len)

/-- `s.replace(regex, repl)` for a `/g` regex: splice each match's
replacement into the original string. -/
def replaceAllGo (s : List Char) (repl : Caps → List Char → List Char) :
    ℕ → List (ℕ × ℕ × Caps) → List Char
  | pos, [] => s.drop pos
  | pos, (idx, len, caps) :: rest =>
      (s.drop pos).take (idx - pos) ++ repl caps ((s.drop idx).take len) ++
        replaceAllGo s repl (idx + len) rest

def replaceAll (re : RE) (repl : Caps → List Char → List Char) (s : List Char) :
    List Char :=
  replaceAllGo s repl 0 (reMatchAll re s)

end Splitly

namespace Splitly

/-! ### Pattern-building helpers for transcribing regex literals -/

def chr (c : Char) : RE := .cls (fun x => x == c)

/-- A case-insensitive literal character (for `/i` patterns). -/
def ciChr (c : Char) : RE := .cls (fun x => ciEqChar c x)

def seqList (l : List RE) : RE := l.foldr RE.seq RE.eps

def strRE (s : String) : RE := seqList (s.toList.map chr)

def ciStrRE (s : String) : RE := seqList (s.toList.map ciChr)

def altList : List RE → RE
  | [] => .cls (fun _ => false)
  | [r] => r
  | r :: rest => .alt r (altList rest)

def oneOf (cs : List Char) : RE := .cls (fun x => cs.contains x)

def ciOneOf (cs : List Char) : RE := .cls (fun x => cs.any (fun c => ciEqChar c x))

def notOneOf (cs : List Char) : RE := .cls (fun x => !cs.contains x)

def digitRE : RE := .cls Char.isDigit

def spaceRE : RE := .cls isSpaceChar

def wordRE : RE := .cls isWordChar

/-- Any character (`.` — newlines never occur in a single receipt line). -/
def dotRE : RE := .cls (fun c => c != '\n' && c != '\r')

def plusRE (a : RE) : RE := .seq a (.star a)

def plusLRE (a : RE) : RE := .seq a (.starL a)

/-- `a{0,k}`, greedy. -/
def repUpTo (a : RE) : ℕ → RE
  | 0 => .eps
  | k + 1 => .opt (.seq a (repUpTo a k))

/-- `a{m,n}`, greedy. -/
def repRange (a : RE) (m n : ℕ) : RE :=
  seqList (List.replicate m a) |>.seq (repUpTo a (n - m))

/-- `a{m,}`, greedy. -/
def repAtLeast (a : RE) (m : ℕ) : RE :=
  seqList (List.replicate m a) |>.seq (.star a)

/-- `a{m}`. -/
def repExact (a : RE) (m : ℕ) : RE := seqList (List.replicate m a)

/-! ### JavaScript string-primitive helpers -/

/-- `s.trim()`. -/
def trimChars (s : List Char) : List Char :=
  ((s.dropWhile isSpaceChar).reverse.dropWhile isSpaceChar).reverse

def toUpperChars (s : List Char) : List Char := s.map Char.toUpper

/-- Numeric value of a non-empty digit string (`parseInt(ds, 10)`). -/
def natDigits (s : List Char) : ℕ :=
  s.foldl (fun acc c => 10 * acc + (c.toNat - '0'.toNat)) 0

/-- `parseFloat` on a matched group of shape `digits` or `digits.digits`. -/
def parseDec (s : List Char) : ℚ :=
  let whole := s.takeWhile Char.isDigit
  let rest := s.drop whole.length
  match rest with
  | '.' :: fr =>
      let frd := fr.takeWhile Char.isDigit
      (natDigits whole : ℚ) + (natDigits frd : ℚ) / ((10 : ℚ) ^ frd.length)
  | _ => (natDigits whole : ℚ)

/-- `parseFloat(dollars + "." + cents)` from two digit groups. -/
def priceOfGroups (dollars cents : List Char) : ℚ :=
  (natDigits dollars : ℚ) + (natDigits cents : ℚ) / 100

/-- `s.lastIndexOf(sub)` for a `sub` known to occur (the source only calls
it on the substring a regex just matched); returns 0 when absent. -/
def lastIndexOfChars (sub s : List Char) : ℕ :=
  ((List.range (s.length + 1)).filter
      (fun i => startsWithChars sub (s.drop i))).getLast?.getD 0

end Splitly

namespace Splitly

/-! ## Data model (`imports/api/models.ts`)

`number` fields are exact rationals; optional fields are `Option`. -/

structure ItemSplitShare where
  userId : String
  type : String
  value : ℚ
deriving Repr, DecidableEq

structure Item where
  id : String
  name : String
  price : ℚ
  userIds : List String
  splitType : Option String
  shares : Option (List ItemSplitShare)
deriving Repr, DecidableEq

structure UserProfile where
  id : String
  name : String
deriving Repr, DecidableEq

/-- The bill fields the split engine and the split page read
(`models.ts` `BillDoc` plus the reconciliation fields `bills.ts` adds). -/
structure BillDoc where
  idOpt : Option String
  users : List UserProfile
  items : List Item
  taxAmount : Option ℚ
  calculatedWithTax : Option ℚ
deriving Repr, DecidableEq

/-! ## Split allocation engine (`computeExpenseSummary`, `models.ts`)

`perUserMap` is a JavaScript `Map`, i.e. an insertion-ordered key-value
list; `mapGetD`/`mapSetKV` mirror `get`/`set`. -/

def mapGetD (m : List (String × ℚ)) (k : String) : ℚ :=
  match m.find? (fun p => p.1 == k) with
  | some p => p.2
  | none => 0

def mapSetKV (m : List (String × ℚ)) (k : String) (v : ℚ) : List (String × ℚ) :=
  match m with
  | [] => [(k, v)]
  | p :: rest => if p.1 == k then (k, v) :: rest else p :: mapSetKV rest k v

/-- The per-user amounts one item contributes, in the order the engine's
`forEach` calls `perUserMap.set`.  Percent branch: `item.splitType ===
'percent' && item.shares` (a present array, even empty, is truthy);
`sumPercent = percentShares.reduce(...) || 100` (a zero sum is falsy and
becomes 100); `amt = item.price * (s.value * scale / 100)`.  Fixed branch:
each declared value, then — when `remainder = max(0, price - allocated)`
is positive and there are fixed shares — an even `remainder / n` extra per
share.  Otherwise an equal split over `item.userIds` when non-empty. -/
def itemContribs (item : Item) : List (String × ℚ) :=
  if item.splitType == some "percent" && item.shares.isSome then
    let percentShares := (item.shares.getD []).filter (fun s => s.type == "percent")
    let sumPercent0 := (percentShares.map (fun s => s.value)).sum
    let sumPercent := if sumPercent0 == 0 then 100 else sumPercent0
    let scale := 100 / sumPercent
    percentShares.map (fun s => (s.userId, item.price * (s.value * scale / 100)))
  else if item.splitType == some "fixed" && item.shares.isSome then
    let fixedShares := (item.shares.getD []).filter (fun s => s.type == "fixed")
    let allocated := (fixedShares.map (fun s => s.value)).sum
    let base := fixedShares.map (fun s => (s.userId, s.value))
    let remainder := max 0 (item.price - allocated)
    if remainder > 0 && !fixedShares.isEmpty then
      base ++ fixedShares.map (fun s => (s.userId, remainder / fixedShares.length))
    else base
  else if !item.userIds.isEmpty then
    item.userIds.map (fun uid => (uid, item.price / item.userIds.length))
  else []

def applyContribs (m : List (String × ℚ)) (cs : List (String × ℚ)) :
    List (String × ℚ) :=
  cs.foldl (fun m c => mapSetKV m c.1 (mapGetD m c.1 + c.2)) m

/-- The engine's `perUserMap` after all items, before cent rounding. -/
def rawPerUser (items : List Item) : List (String × ℚ) :=
  items.foldl (fun m it => applyContribs m (itemContribs it)) []

structure ExpenseSummaryEntry where
  userId : String
  amount : ℚ
deriving Repr, DecidableEq

structure ExpenseSummary where
  billId : String
  grandTotal : ℚ
  perUser : List ExpenseSummaryEntry
deriving Repr, DecidableEq

/-- `computeExpenseSummary` (`imports/api/models.ts`, also duplicated in
`imports/api/receiptParsers.ts`). -/
def computeExpenseSummary (bill : BillDoc) : ExpenseSummary :=
  { billId :=
      match bill.idOpt with
      | some s => if s == "" then "local" else s
      | none => "local"
    grandTotal := round2 ((bill.items.map (fun it => it.price)).sum)
    perUser := (rawPerUser bill.items).map (fun p =>
      { userId := p.1, amount := round2 p.2 }) }

end Splitly

namespace Splitly

/-! ## Final penny-exact rounding
(`finalPerUserRows`, `imports/ui/blaze/pages/splitPage.js`) -/

structure Row where
  userId : String
  name : String
  itemsSubtotal : ℚ
  taxShareRaw : ℚ
  totalRaw : ℚ
  taxShare : ℚ
  totalRounded : ℚ
  exactShare : ℚ
  sharePercentageInt : ℤ
deriving Repr, DecidableEq

def listModify (l : List α) (i : ℕ) (f : α → α) : List α :=
  match l, i with
  | [], _ => []
  | x :: rest, 0 => f x :: rest
  | x :: rest, i + 1 => x :: listModify rest i f

/-- Index the element a stable descending JavaScript sort would place
first: the first position attaining the maximum. -/
def firstMaxIdxGo : List ℚ → ℕ → ℕ → ℚ → ℕ
  | [], _, bi, _ => bi
  | q :: rest, i, bi, bq =>
      if q > bq then firstMaxIdxGo rest (i + 1) i q
      else firstMaxIdxGo rest (i + 1) bi bq

def firstMaxIdx : List ℚ → ℕ
  | [] => 0
  | q :: rest => firstMaxIdxGo rest 1 0 q

/-- Stable descending insertion by the rational key — the order
`[...].sort((a, b) => b.remainder - a.remainder)` produces. -/
def insertStableDesc (x : ℕ × ℚ) : List (ℕ × ℚ) → List (ℕ × ℚ)
  | [] => [x]
  | y :: rest => if y.2 > x.2 then y :: insertStableDesc x rest else x :: y :: rest

def sortStableDesc (l : List (ℕ × ℚ)) : List (ℕ × ℚ) :=
  l.foldr insertStableDesc []

/-- The grand total `finalPerUserRows` reconciles against:
`b.calculatedWithTax` when it is a number, otherwise
`Number((summary.grandTotal + tax).toFixed(2))`. -/
def billTotalOf (b : BillDoc) : ℚ :=
  match b.calculatedWithTax with
  | some v => v
  | none => round2 ((computeExpenseSummary b).grandTotal + b.taxAmount.getD 0)

/-- Stage 1+2 of `finalPerUserRows`: per-user rows with raw totals, the
rounded tax share, the (numerically idempotent) tax re-add branch, and
the independent cent rounding of each row total. -/
def roundedRows (b : BillDoc) : List Row :=
  let summary := computeExpenseSummary b
  let tax := b.taxAmount.getD 0
  let taxShare := tax / (b.users.length : ℚ)
  let perUserMap := summary.perUser.map (fun p => (p.userId, p.amount))
  let rows1 := b.users.map (fun u =>
    let itemsSubtotal := round2 (mapGetD perUserMap u.id)
    ({ userId := u.id, name := u.name, itemsSubtotal := itemsSubtotal,
       taxShareRaw := taxShare, totalRaw := itemsSubtotal + taxShare,
       taxShare := 0, totalRounded := 0, exactShare := 0,
       sharePercentageInt := 0 } : Row))
  rows1.map (fun r =>
    let totalRaw2 :=
      if tax > 0 ∧ |r.totalRaw - r.itemsSubtotal| < 1 / 10000 then
        r.itemsSubtotal + taxShare
      else r.totalRaw
    { r with taxShare := round2 r.taxShareRaw, totalRaw := totalRaw2,
             totalRounded := round2 totalRaw2 })

/-- Stage 3 of `finalPerUserRows`: when the rounded row totals miss the
bill total by at least one cent, the residual is added to the row a
stable descending sort by fractional remainder puts first. -/
def correctedRows (b : BillDoc) : List Row :=
  let rows2 := roundedRows b
  let sumRounded := round2 ((rows2.map (fun r => r.totalRounded)).sum)
  let diff := round2 (billTotalOf b - sumRounded)
  if |diff| ≥ 1 / 100 then
    let j := firstMaxIdx (rows2.map (fun r => r.totalRaw - (⌊r.totalRaw⌋ : ℚ)))
    listModify rows2 j (fun r =>
      { r with totalRounded := round2 (r.totalRounded + diff) })
  else rows2

/-- Trailing stage of `finalPerUserRows`: integer share percentages by
floor plus largest-remainder distribution. -/
def percentRows (b : BillDoc) : List Row :=
  let summary := computeExpenseSummary b
  let billTotal := billTotalOf b
  let rows3 := correctedRows b
  let rows4 := rows3.map (fun r =>
    { r with exactShare :=
        if billTotal > 0 then r.totalRounded / billTotal * 100 else 0 })
  let rows5 :=
    if billTotal > 0 ∧ !rows4.isEmpty ∧ rows4.all (fun r => r.exactShare == 0) then
      rows4.map (fun r =>
        { r with exactShare :=
            r.itemsSubtotal /
              (if summary.grandTotal == 0 then 1 else summary.grandTotal) * 100 })
    else rows4
  let floors := rows5.map (fun r => ⌊r.exactShare⌋)
  let remaining := 100 - floors.sum
  let remainders := sortStableDesc (rows5.enum.map (fun p =>
    (p.1, p.2.exactShare - (⌊p.2.exactShare⌋ : ℚ))))
  let takeCount := min remaining.toNat remainders.length
  let floors2 := ((remainders.take takeCount).map (fun p => p.1)).foldl
    (fun f i => listModify f i (fun v => v + 1)) floors
  rows5.enum.map (fun p =>
    { p.2 with sharePercentageInt := floors2.getD p.1 0 })

/-- `finalPerUserRows` (`splitPage.js`): empty when the bill has no
users, otherwise the fully processed rows. -/
def finalPerUserRows (b : BillDoc) : List Row :=
  if b.users.isEmpty then [] else percentRows b

end Splitly

namespace Splitly

/-! ## Totals reconciliation (`persistParsedReceipt`, `imports/api/bills.ts`) -/

/-- A JavaScript value as stored by the `$set` document: the mismatch
flags are produced by `x && boolExpr`, which keeps the falsy left
operand (`null` or `0`) instead of producing a boolean. -/
inductive JsVal where
  | jnull
  | jnum (q : ℚ)
  | jbool (b : Bool)
deriving Repr, DecidableEq

/-- `x && f(x)` for `x : number | null` and a boolean right operand. -/
def andFlag (x : Option ℚ) (f : ℚ → Bool) : JsVal :=
  match x with
  | none => .jnull
  | some q => if q == 0 then .jnum 0 else .jbool (f q)

/-- The reconciliation fields `persistParsedReceipt` computes and stores
(`bills.ts`): `calculatedTotal` is the cent-rounded sum of item prices,
the mismatch flags compare against the declared totals with a `> 0.05`
absolute tolerance guarded by JavaScript truthiness. -/
structure PersistedTotals where
  storeName : String
  receiptTotal : Option ℚ
  calculatedTotal : ℚ
  totalMismatch : JsVal
  taxAmount : ℚ
  totalAmount : Option ℚ
  calculatedWithTax : ℚ
  totalWithTaxMismatch : JsVal
deriving Repr, DecidableEq

def persistedTotals (items : List Item) (receiptTotal : Option ℚ) (taxAmount : ℚ)
    (totalAmount : Option ℚ) (storeName : Option String) : PersistedTotals :=
  let calculatedTotal := round2 ((items.map (fun it => it.price)).sum)
  let calculatedWithTax := round2 (calculatedTotal + taxAmount)
  { storeName :=
      match storeName with
      | some s => if s == "" then "Receipt" else s
      | none => "Receipt"
    receiptTotal :=
      match receiptTotal with
      | some q => if q == 0 then none else some (round2 q)
      | none => none
    calculatedTotal := round2 calculatedTotal
    totalMismatch := andFlag receiptTotal (fun r => |calculatedTotal - r| > 5 / 100)
    taxAmount := round2 taxAmount
    totalAmount :=
      match totalAmount with
      | some q => if q == 0 then none else some (round2 q)
      | none => none
    calculatedWithTax := round2 calculatedWithTax
    totalWithTaxMismatch := andFlag totalAmount (fun t => |calculatedWithTax - t| > 5 / 100) }

end Splitly

namespace Splitly

/-! ## Shared receipt-parsing utilities (`imports/api/receiptUtils.ts`,
second part of `bills.ts`) — regex transcriptions -/

def letterRE : RE := .cls Char.isAlpha

def upperRE : RE := .cls (fun c => 'A' ≤ c && c ≤ 'Z')

def lowerRE : RE := .cls (fun c => 'a' ≤ c && c ≤ 'z')

def bosAltCi (ws : List String) : RE := .seq .bos (altList (ws.map ciStrRE))

/-- `/^(ST#|OP#|TE#|TR#|TC#|TID|PID|AID|TVR|TSI|CV Member|Seq|App#|Tran ID|RRN|FID)/i` -/
def skipRe1 : RE := bosAltCi ["ST#", "OP#", "TE#", "TR#", "TC#", "TID", "PID",
  "AID", "TVR", "TSI", "CV Member", "Seq", "App#", "Tran ID", "RRN", "FID"]

/-- `/^(STORE|CASHIER|CUSTOMER|CASH|REG|INVOICE|SALE|SELF-CHECKOUT|Resp:)/i` -/
def skipRe2 : RE := bosAltCi ["STORE", "CASHIER", "CUSTOMER", "CASH", "REG",
  "INVOICE", "SALE", "SELF-CHECKOUT", "Resp:"]

/-- `/^(Sales Check #|Entry Method|FTFM|APPROVED)/i` -/
def skipRe3 : RE := bosAltCi ["Sales Check #", "Entry Method", "FTFM", "APPROVED"]

/-- `/^(WAL\*MART|Save money|Live better)/i` -/
def skipRe4 : RE := bosAltCi ["WAL*MART", "Save money", "Live better"]

/-- date lines: digits `{1,2}`, a slash-or-dash, digits `{1,2}`, a
slash-or-dash, digits `{2,4}`, anchored at the start -/
def skipReDate : RE := seqList [.bos, repRange digitRE 1 2, oneOf ['/', '-'],
  repRange digitRE 1 2, oneOf ['/', '-'], repRange digitRE 2 4]

/-- `/^\d{2}:\d{2}/` (times) -/
def skipReTime : RE := seqList [.bos, repExact digitRE 2, chr ':', repExact digitRE 2]

/-- `/^[\d\s:]+$/` (only digits, whitespace, colons) -/
def skipReDigitsOnly : RE := seqList [.bos,
  plusRE (.cls (fun c => c.isDigit || isSpaceChar c || c == ':')), .eos]

/-- `/^[|\-*=_]+$/` (separators) -/
def skipReSep : RE := seqList [.bos, plusRE (oneOf ['|', '-', '*', '=', '_']), .eos]

/-- `/^[A-Z]{1,3}:\s*$/` (single letters with colon) -/
def skipReLettersColon : RE := seqList [.bos, repRange upperRE 1 3, chr ':',
  .star spaceRE, .eos]

/-- `/^\d{10,}$/` (long number strings) -/
def skipReBarcode : RE := seqList [.bos, repAtLeast digitRE 10, .eos]

/-- `/^(DISCOVER|AID|TVR|TSI|APPROVED|Entry Method|FTFM|Resp:|AMOUNT|CHANGE)/i` -/
def skipRe11 : RE := bosAltCi ["DISCOVER", "AID", "TVR", "TSI", "APPROVED",
  "Entry Method", "FTFM", "Resp:", "AMOUNT", "CHANGE"]

/-- `/^(Visa|VISA|MASTERCARD|DEBIT|CREDIT|TEND)/i` -/
def skipRe12 : RE := bosAltCi ["Visa", "VISA", "MASTERCARD", "DEBIT", "CREDIT", "TEND"]

/-- `/^(DAIRY|FROZEN|PRODUCE|POULTRY|SEAFOOD|BAKERY|MEAT|DELI)$/i` -/
def skipReSection : RE := .seq (bosAltCi ["DAIRY", "FROZEN", "PRODUCE", "POULTRY",
  "SEAFOOD", "BAKERY", "MEAT", "DELI"]) .eos

/-- `/^[XE]\s*$/` -/
def skipReXE : RE := seqList [.bos, oneOf ['X', 'E'], .star spaceRE, .eos]

/-- `/^(Thank You|Have A Nice Day|For Your Business)/i` -/
def skipReFooter : RE := bosAltCi ["Thank You", "Have A Nice Day", "For Your Business"]

/-- `/^\*{3,}/` -/
def skipReStars : RE := .seq .bos (repAtLeast (chr '*') 3)

/-- `/^#\s*ITEMS\s*SOLD/i` -/
def skipReItemsSold : RE := seqList [.bos, chr '#', .star spaceRE, ciStrRE "ITEMS",
  .star spaceRE, ciStrRE "SOLD"]

/-- `/^TC#\s*\d+/` -/
def skipReTcNum : RE := seqList [.bos, strRE "TC#", .star spaceRE, plusRE digitRE]

/-- `/^[\d.]+\s*lb\s*[@e]/i` (weight calculation lines) -/
def skipReWeight : RE := seqList [.bos, plusRE (.cls (fun c => c.isDigit || c == '.')),
  .star spaceRE, ciStrRE "lb", .star spaceRE, ciOneOf ['@', 'e']]

/-- `/^\d+\s+AT\s+\d+\s+FOR/i` (quantity lines) -/
def skipReQty : RE := seqList [.bos, plusRE digitRE, plusRE spaceRE, ciStrRE "AT",
  plusRE spaceRE, plusRE digitRE, plusRE spaceRE, ciStrRE "FOR"]

/-- `skipLine` (`receiptUtils.ts`): the shared skip-classifier. -/
def skipLine (line : List Char) : Bool :=
  reTest skipRe1 line || reTest skipRe2 line || reTest skipRe3 line ||
  reTest skipRe4 line || reTest skipReDate line || reTest skipReTime line ||
  reTest skipReDigitsOnly line || reTest skipReSep line ||
  reTest skipReLettersColon line || reTest skipReBarcode line ||
  reTest skipRe11 line || reTest skipRe12 line || reTest skipReSection line ||
  reTest skipReXE line || reTest skipReFooter line || reTest skipReStars line ||
  reTest skipReItemsSold line || reTest skipReTcNum line ||
  reTest skipReWeight line || reTest skipReQty line ||
  decide (line.length < 2)

end Splitly

namespace Splitly

/-! ## Totals extraction (`extractTotalsFromLines`, `receiptUtils.ts`) -/

/-- `/SUB.*?TOTAL/i` -/
def subAnyTotalRE : RE := seqList [ciStrRE "SUB", .starL dotRE, ciStrRE "TOTAL"]

/-- `/TOTAL|SUBTOTAL/i` -/
def totalOrSubtotalRE : RE := .alt (ciStrRE "TOTAL") (ciStrRE "SUBTOTAL")

/-- `/TAX/i` -/
def taxWordRE : RE := ciStrRE "TAX"

/-- `/[$]?(\d+[.,]\d{2})/` -/
def labeledAmountRE : RE := seqList [.opt (chr '$'),
  .grp 1 (seqList [plusRE digitRE, oneOf ['.', ','], repExact digitRE 2])]

/-- `/^\*+\s*TOTAL|^(?!.*SUB).*TOTAL|DEBIT|VISA|CREDIT|PAID|AMOUNT DUE|BALANCE DUE/i`
(the second alternative uses a negative lookahead). -/
def totalLineRE : RE := altList
  [seqList [.bos, plusRE (chr '*'), .star spaceRE, ciStrRE "TOTAL"],
   seqList [.bos, .nla (seqList [.star dotRE, ciStrRE "SUB"]), .star dotRE,
            ciStrRE "TOTAL"],
   ciStrRE "DEBIT", ciStrRE "VISA", ciStrRE "CREDIT", ciStrRE "PAID",
   ciStrRE "AMOUNT DUE", ciStrRE "BALANCE DUE"]

/-- `match[1].replace(',', '.')` (a string pattern replaces the first
occurrence only). -/
def replaceFirstComma : List Char → List Char
  | [] => []
  | c :: rest => if c == ',' then '.' :: rest else c :: replaceFirstComma rest

/-- Truthiness of a `number | null` JavaScript variable. -/
def jsFalsy (x : Option ℚ) : Bool :=
  match x with
  | none => true
  | some q => q == 0

structure ExtractedTotals where
  receiptTotal : Option ℚ
  taxAmount : ℚ
  totalAmount : Option ℚ
deriving Repr, DecidableEq

/-- First `[$]?(\d+[.,]\d{2})` amount on a line, if any. -/
def firstAmount (line : List Char) : Option ℚ :=
  match reFind labeledAmountRE line with
  | some (_, _, caps) => some (parseDec (replaceFirstComma (capGet caps 1)))
  | none => none

/-- `extractTotalsFromLines` (`receiptUtils.ts`): one pass over the lines,
keeping the first truthy subtotal and total and accumulating every `TAX`
line's amount. -/
def extractTotalsFromLines (lines : List (List Char)) : ExtractedTotals :=
  lines.foldl (fun acc line =>
    let upperLine := toUpperChars line
    let acc1 :=
      if jsFalsy acc.receiptTotal && reTest subAnyTotalRE upperLine then
        match firstAmount line with
        | some v => { acc with receiptTotal := some v }
        | none => acc
      else acc
    let acc2 :=
      if reTest taxWordRE upperLine && !reTest totalOrSubtotalRE upperLine then
        match firstAmount line with
        | some v => { acc1 with taxAmount := acc1.taxAmount + v }
        | none => acc1
      else acc1
    if jsFalsy acc2.totalAmount && reTest totalLineRE upperLine then
      match firstAmount line with
      | some v => if v > 0 then { acc2 with totalAmount := some v } else acc2
      | none => acc2
    else acc2)
    { receiptTotal := none, taxAmount := 0, totalAmount := none }

/-! ## Price extraction (`extractPriceFromLine`, `receiptUtils.ts`) -/

/-- `/[$§](\d+)[.\s](\d{2})/g` — the second class character appears
mojibake-encoded in the checked-in file; it is the section sign the
sibling parser writes as `[$§]`. -/
def priceRe1 : RE := seqList [oneOf ['$', '§'], .grp 1 (plusRE digitRE),
  .cls (fun c => c == '.' || isSpaceChar c), .grp 2 (repExact digitRE 2)]

/-- `/\b(\d{1,4})\.(\d{2})\b/g` -/
def priceRe2 : RE := seqList [.bnd, .grp 1 (repRange digitRE 1 4), chr '.',
  .grp 2 (repExact digitRE 2), .bnd]

/-- `/(\d{1,4})\.(\d{2})\s+[A-Z]\s*[A-Z]?$/g` -/
def priceRe3 : RE := seqList [.grp 1 (repRange digitRE 1 4), chr '.',
  .grp 2 (repExact digitRE 2), plusRE spaceRE, upperRE, .star spaceRE,
  .opt upperRE, .eos]

/-- `/\b(\d{1,4}):(\d{2})\b/g` (OCR misread of the decimal point) -/
def priceRe4 : RE := seqList [.bnd, .grp 1 (repRange digitRE 1 4), chr ':',
  .grp 2 (repExact digitRE 2), .bnd]

def pricePatterns : List RE := [priceRe1, priceRe2, priceRe3, priceRe4]

/-- All `(index, parsed price)` pairs the four patterns produce, in the
order the double loop of `extractPriceFromLine` visits them. -/
def allPriceMatches (line : List Char) : List (ℕ × ℚ) :=
  pricePatterns.flatMap (fun p =>
    (reMatchAll p line).map (fun m =>
      (m.1, priceOfGroups (capGet m.2.2 1) (capGet m.2.2 2))))

/-- `extractPriceFromLine` (`receiptUtils.ts`): the rightmost candidate
wins (`match.index >= priceIndex`), a match at index 0 is skipped by the
`if (!match.index) continue` guard, and only prices strictly between 0
and 1000 qualify. -/
def priceFoldStep (acc : Option ℚ × ℕ) (m : ℕ × ℚ) : Option ℚ × ℕ :=
  if m.1 == 0 then acc
  else if m.2 > 0 && m.2 < 1000 && m.1 ≥ acc.2 then (some m.2, m.1)
  else acc

def extractPriceFromLine (line : List Char) : Option (ℚ × ℕ) :=
  match (allPriceMatches line).foldl priceFoldStep (none, 0) with
  | (some p, idx) => some (p, idx)
  | (none, _) => none

end Splitly

namespace Splitly

/-! ## Item construction (`createItem`, `cleanName`, `finalizeReceipt`,
`receiptUtils.ts`) -/

/-- erase-the-match replacement. -/
def eraseRepl : Caps → List Char → List Char := fun _ _ => []

/-- `/\s+\d{1,3}CT$/i` -/
def cnCtRE : RE := seqList [plusRE spaceRE, repRange digitRE 1 3, ciStrRE "CT", .eos]

/-- `/\s+[A-Z]\d+$/i` (code suffixes) -/
def cnCodeRE : RE := seqList [plusRE spaceRE, letterRE, plusRE digitRE, .eos]

/-- pipe-or-slash and everything after: `\s+[|` slash `].*$` -/
def cnPipeRE : RE := seqList [plusRE spaceRE, oneOf ['|', '/'], .star dotRE, .eos]

/-- trailing `$`/`§`: `/\s+[$§]\s*$/` (mojibake section sign in the file) -/
def cnDollarRE : RE := seqList [plusRE spaceRE, oneOf ['$', '§'], .star spaceRE, .eos]

/-- `/\s{2,}/g` -/
def cnSpacesRE : RE := repAtLeast spaceRE 2

/-- `/\s+[A-Z]$/` (single trailing capital) -/
def cnTrailCapRE : RE := seqList [plusRE spaceRE, upperRE, .eos]

/-- `/\s+\d+$/` (trailing quantity) -/
def cnTrailNumRE : RE := seqList [plusRE spaceRE, plusRE digitRE, .eos]

/-- `/\s+[NTF]F?$/i` (tax codes) -/
def cnTaxCodeRE : RE := seqList [plusRE spaceRE, ciOneOf ['N', 'T', 'F'],
  .opt (ciChr 'F'), .eos]

/-- `/0RGAN/gi` -/
def cnOrganRE : RE := ciStrRE "0RGAN"

/-- `/0RG/gi` -/
def cnOrgRE : RE := ciStrRE "0RG"

/-- `/(\w+)\s+\1/gi` (duplicated word) -/
def cnDupRE : RE := seqList [.grp 1 (plusRE wordRE), plusRE spaceRE, .bref 1 true]

/-- `cleanName` (`receiptUtils.ts`): the generic artifact-stripping
chain, in source order. -/
def cleanName (raw : List Char) : List Char :=
  let name := trimChars raw
  let name := replaceFirst cnCtRE eraseRepl name
  let name := replaceFirst cnCodeRE eraseRepl name
  let name := replaceFirst cnPipeRE eraseRepl name
  let name := replaceFirst cnDollarRE eraseRepl name
  let name := replaceAll cnSpacesRE (fun _ _ => [' ']) name
  let name := replaceFirst cnTrailCapRE eraseRepl name
  let name := replaceFirst cnTrailNumRE eraseRepl name
  let name := replaceFirst cnTaxCodeRE eraseRepl name
  let name := replaceAll cnOrganRE (fun _ _ => "ORGAN".toList) name
  let name := replaceAll cnOrgRE (fun _ _ => "ORG".toList) name
  let name := replaceAll cnDupRE (fun caps _ => capGet caps 1) name
  trimChars name

/-- `createItem` (`receiptUtils.ts`).  The generated id is
`ocr<timestamp>_<random>` in the source; the timestamp/random suffix is
impure and irrelevant to every property below, so the model uses the
constant prefix. -/
def createItem (name : List Char) (price : ℚ) (userIds : List String) : Item :=
  { id := "ocr", name := (cleanName name).asString, price := price,
    userIds := userIds, splitType := some "equal", shares := none }

structure FinalizedReceipt where
  items : List Item
  receiptTotal : Option ℚ
  taxAmount : ℚ
  totalAmount : Option ℚ
deriving Repr, DecidableEq

/-- `finalizeReceipt` (`receiptUtils.ts`): when subtotal or total is
falsy and items exist, fill them from the summed item prices. -/
def finalizeReceipt (items : List Item) (receiptTotal : Option ℚ) (taxAmount : ℚ)
    (totalAmount : Option ℚ) : FinalizedReceipt :=
  if (jsFalsy receiptTotal || jsFalsy totalAmount) && !items.isEmpty then
    let rt :=
      if jsFalsy receiptTotal then
        round2 ((items.map (fun it => it.price)).sum)
      else receiptTotal.getD 0
    let ta := if jsFalsy totalAmount then rt + taxAmount else totalAmount.getD 0
    { items := items, receiptTotal := some rt, taxAmount := taxAmount,
      totalAmount := some ta }
  else
    { items := items, receiptTotal := receiptTotal, taxAmount := taxAmount,
      totalAmount := totalAmount }

end Splitly

namespace Splitly

/-! ## Store text parsers (`parseWalmartReceipt`, `parseGenericReceipt`,
`imports/api/receiptParsers.ts`)

Each parser is embedded as an index-tagged loop (`...Aux`): every pushed
item carries the loop index of the line its name came from, and the
untagged parser is its projection.  This makes "no item is derived from
line `i`" directly statable. -/

/-- `text.split(/\n/).map(l => l.trim()).filter(Boolean)` -/
def splitReceiptLines (text : String) : List (List Char) :=
  ((text.splitOn "\n").map (fun l => trimChars l.toList)).filter
    (fun l => !l.isEmpty)

/-- Walmart summary-line guard:
`/^(SUB.*?TOTAL|TAX|TOTAL|BALANCE|CHANGE|VISA|CREDIT|DEBIT|APPROVED|THANK|MASTERCARD|#\s*ITEMS\s*SOLD)/i` -/
def wmSummaryRE : RE := .seq .bos (altList
  [seqList [ciStrRE "SUB", .starL dotRE, ciStrRE "TOTAL"], ciStrRE "TAX",
   ciStrRE "TOTAL", ciStrRE "BALANCE", ciStrRE "CHANGE", ciStrRE "VISA",
   ciStrRE "CREDIT", ciStrRE "DEBIT", ciStrRE "APPROVED", ciStrRE "THANK",
   ciStrRE "MASTERCARD",
   seqList [chr '#', .star spaceRE, ciStrRE "ITEMS", .star spaceRE, ciStrRE "SOLD"]])

/-- `/^\.?\d+\.?\d*\s*(lb|1b|ib|lbe|1be|1lbe|llb|i1b)[\s@e1]/i`
(weight-calculation lines with OCR variants of "lb") -/
def wmWeightCalcRE : RE := seqList [.bos, .opt (chr '.'), plusRE digitRE,
  .opt (chr '.'), .star digitRE, .star spaceRE,
  altList [ciStrRE "lb", ciStrRE "1b", ciStrRE "ib", ciStrRE "lbe",
           ciStrRE "1be", ciStrRE "1lbe", ciStrRE "llb", ciStrRE "i1b"],
  .cls (fun c => isSpaceChar c || c == '@' || ciEqChar 'e' c || c == '1')]

/-- `/^\d+\s+AT\s+\d+\s+FOR/i` -/
def wmQtyCalcRE : RE := seqList [.bos, plusRE digitRE, plusRE spaceRE,
  ciStrRE "AT", plusRE spaceRE, plusRE digitRE, plusRE spaceRE, ciStrRE "FOR"]

/-- `/#\s*ITEMS\s*SOLD[:\s]*(\d+)/i` -/
def wmItemsSoldRE : RE := seqList [chr '#', .star spaceRE, ciStrRE "ITEMS",
  .star spaceRE, ciStrRE "SOLD", .star (.cls (fun c => c == ':' || isSpaceChar c)),
  .grp 1 (plusRE digitRE)]

/-- `/(\d+\.\d{2})/g` (all plain prices on a calculation line) -/
def plainPriceRE : RE := .grp 1 (seqList [plusRE digitRE, chr '.', repExact digitRE 2])

/-- `/\s+(\d+\.\d{2})\s*$/` (price at end of a Walmart item line) -/
def wmLinePriceRE : RE := seqList [plusRE spaceRE,
  .grp 1 (seqList [plusRE digitRE, chr '.', repExact digitRE 2]), .star spaceRE, .eos]

/-- `/\s+\d{12,}\s*[A-Z]?\s*$/i` (barcode suffix) -/
def wmBarcodeEndRE : RE := seqList [plusRE spaceRE, repAtLeast digitRE 12,
  .star spaceRE, .opt letterRE, .star spaceRE, .eos]

/-- `/\s+[A-Z]\s*$/i` (tax-code suffix) -/
def wmTaxCodeEndRE : RE := seqList [plusRE spaceRE, letterRE, .star spaceRE, .eos]

/-- `/^[0-9\/\s]+/` written `[0-9/\s]` in the source (leading numbers,
slashes, whitespace) -/
def leadNumRE : RE := .seq .bos
  (plusRE (.cls (fun c => c.isDigit || c == '/' || isSpaceChar c)))

/-- `/^(PRODUCT|QTY|AMT|ITEM|PRICE|ST#|OP#|TE#|TR#)$/i` -/
def wmBadNameRE : RE := .seq (bosAltCi
  ["PRODUCT", "QTY", "AMT", "ITEM", "PRICE", "ST#", "OP#", "TE#", "TR#"]) .eos

/-- Walmart weight-branch name derivation: strip barcode, tax code,
leading numbers, then trim. -/
def wmWeightName (line : List Char) : List Char :=
  trimChars (replaceFirst leadNumRE eraseRepl
    (replaceFirst wmTaxCodeEndRE eraseRepl
      (replaceFirst wmBarcodeEndRE eraseRepl line)))

/-- Walmart regular-branch name derivation from the text before the
price: strip barcode and tax code with a trim, then leading numbers. -/
def wmRegularName (beforePrice : List Char) : List Char :=
  let b := trimChars (replaceFirst wmTaxCodeEndRE eraseRepl
    (replaceFirst wmBarcodeEndRE eraseRepl (trimChars beforePrice)))
  trimChars (replaceFirst leadNumRE eraseRepl b)

/-- The matched characters of a `reMatchAll` entry. -/
def matchedChars (s : List Char) (m : ℕ × ℕ × Caps) : List Char :=
  (s.drop m.1).take m.2.1

/-- The per-line item decision of the Walmart loop, for a line that
survived the used/skip/calculation guards: `some (item, mark)` pushes
the item (tagged with this loop index), `mark` records that the next
line was consumed as this item's weight/quantity calculation line. -/
def wmBody (lines : List (List Char)) (userIds : List String) (i : ℕ) :
    Option Item × Bool :=
  let line := lines.getD i []
  let regular : Option Item × Bool :=
    match reFind wmLinePriceRE line with
    | none => (none, false)
    | some (_, _, caps) =>
      let priceStr := capGet caps 1
      let price := parseDec priceStr
      let priceIndex := lastIndexOfChars priceStr line
      let name := wmRegularName (line.take priceIndex)
      if name.length < 2 || name.length > 60 then (none, false)
      else if reTest wmBadNameRE name then (none, false)
      else (some (createItem name price userIds), false)
  if i + 1 < lines.length then
    let nextLine := trimChars (lines.getD (i + 1) [])
    if reTest wmWeightCalcRE nextLine || reTest wmQtyCalcRE nextLine then
      let priceMatches := reMatchAll plainPriceRE nextLine
      if !priceMatches.isEmpty then
        let finalPrice := parseDec
          (matchedChars nextLine (priceMatches.getLastD (0, 0, [])))
        let name := wmWeightName line
        if 2 ≤ name.length && name.length ≤ 60 && !reTest wmBadNameRE name then
          (some (createItem name finalPrice userIds), true)
        else (none, false)
      else regular
    else regular
  else regular

/-- The Walmart parsing loop over remaining indices, threading the
`usedLines` set and tagging each pushed item with the loop index it was
pushed at. -/
def wmGo (lines : List (List Char)) (userIds : List String) :
    List ℕ → List ℕ → List (ℕ × Item)
  | [], _ => []
  | i :: rest, used =>
    if used.contains i then wmGo lines userIds rest used else
    let line := lines.getD i []
    if skipLine line || reTest wmSummaryRE (toUpperChars line) then
      wmGo lines userIds rest used
    else if reTest wmWeightCalcRE line || reTest wmQtyCalcRE line then
      wmGo lines userIds rest used
    else
      let body := wmBody lines userIds i
      let used2 := if body.2 then (i + 1) :: used else used
      match body.1 with
      | some item => (i, item) :: wmGo lines userIds rest used2
      | none => wmGo lines userIds rest used2

def parseWalmartAux (lines : List (List Char)) (userIds : List String) :
    List (ℕ × Item) :=
  wmGo lines userIds (List.range lines.length) []

/-- `parseWalmartReceipt` (`receiptParsers.ts`).  The
`# ITEMS SOLD` count is extracted only for a console diagnostic and does
not influence the result. -/
def parseWalmartReceipt (text : String) (userIds : List String) : FinalizedReceipt :=
  let lines := splitReceiptLines text
  let totals := extractTotalsFromLines lines
  finalizeReceipt ((parseWalmartAux lines userIds).map (fun p => p.2))
    totals.receiptTotal totals.taxAmount totals.totalAmount

/-- Generic summary-line guard:
`/^(SUB.*?TOTAL|TAX|TOTAL|BALANCE|CHANGE|VISA|CREDIT|DEBIT|APPROVED|THANK)/i` -/
def genSummaryRE : RE := .seq .bos (altList
  [seqList [ciStrRE "SUB", .starL dotRE, ciStrRE "TOTAL"], ciStrRE "TAX",
   ciStrRE "TOTAL", ciStrRE "BALANCE", ciStrRE "CHANGE", ciStrRE "VISA",
   ciStrRE "CREDIT", ciStrRE "DEBIT", ciStrRE "APPROVED", ciStrRE "THANK"])

/-- `/^[EOX]\s+/` -/
def genLeadEOXRE : RE := seqList [.bos, oneOf ['E', 'O', 'X'], plusRE spaceRE]

/-- `/\s+@.*$/` -/
def genAtSuffixRE : RE := seqList [plusRE spaceRE, chr '@', .star dotRE, .eos]

/-- `/\s+[A-Z]\d+$/i` -/
def genCodeSuffixRE : RE := seqList [plusRE spaceRE, letterRE, plusRE digitRE, .eos]

/-- `/\d{1,4}[.\s:]\d{2}/` (does the next line have a price?) -/
def genHasPriceRE : RE := seqList [repRange digitRE 1 4,
  .cls (fun c => c == '.' || isSpaceChar c || c == ':'), repExact digitRE 2]

/-- `/^[a-z]/` -/
def genStartsLowerRE : RE := .seq .bos lowerRE

/-- `/\d+g$|\d+lb$/i` -/
def genUnitsEndRE : RE := .alt (seqList [plusRE digitRE, ciChr 'g', .eos])
  (seqList [plusRE digitRE, ciStrRE "lb", .eos])

/-- `/^(PRODUCT|QTY|AMT|ITEM|PRICE|DAIRY|FROZEN|POULTRY|PRODUCE|SEAFOOD|BAKERY|MEAT|DELI)$/i` -/
def genBadNameRE : RE := .seq (bosAltCi
  ["PRODUCT", "QTY", "AMT", "ITEM", "PRICE", "DAIRY", "FROZEN", "POULTRY",
   "PRODUCE", "SEAFOOD", "BAKERY", "MEAT", "DELI"]) .eos

/-- Generic-branch name derivation from the text before the price. -/
def genName (beforePrice : List Char) : List Char :=
  trimChars (replaceFirst genCodeSuffixRE eraseRepl
    (replaceFirst genAtSuffixRE eraseRepl
      (replaceFirst leadNumRE eraseRepl
        (replaceFirst genLeadEOXRE eraseRepl (trimChars beforePrice)))))

/-- The per-line item decision of the generic loop: `mark` records that
the next line was consumed as a multi-line item-name continuation (the
source adds it to `usedLines` at merge time, before the validity
checks, so the mark survives even when the merged name is discarded). -/
def genBody (lines : List (List Char)) (userIds : List String) (i : ℕ) :
    Option Item × Bool :=
  let line := lines.getD i []
  match extractPriceFromLine line with
  | none => (none, false)
  | some (price, priceIndex) =>
    let name := genName (line.take priceIndex)
    let merged :=
      if 3 ≤ name.length && i + 1 < lines.length then
        let nextLine := trimChars (lines.getD (i + 1) [])
        let hasPrice := reTest genHasPriceRE nextLine
        let isShort := nextLine.length < 30
        let startsLower := reTest genStartsLowerRE nextLine
        let endsWithUnits := reTest genUnitsEndRE nextLine
        if !hasPrice && isShort && (startsLower || endsWithUnits) then
          some (name ++ ' ' :: nextLine)
        else none
      else none
    let name2 := match merged with | some n => n | none => name
    let mark := merged.isSome
    if name2.length < 3 || name2.length > 60 then (none, mark)
    else if reTest genBadNameRE name2 then (none, mark)
    else (some (createItem name2 price userIds), mark)

/-- The generic parsing loop with the same index tagging as `wmGo`. -/
def genGo (lines : List (List Char)) (userIds : List String) :
    List ℕ → List ℕ → List (ℕ × Item)
  | [], _ => []
  | i :: rest, used =>
    if used.contains i then genGo lines userIds rest used else
    let line := lines.getD i []
    if skipLine line || reTest genSummaryRE (toUpperChars line) then
      genGo lines userIds rest used
    else
      let body := genBody lines userIds i
      let used2 := if body.2 then (i + 1) :: used else used
      match body.1 with
      | some item => (i, item) :: genGo lines userIds rest used2
      | none => genGo lines userIds rest used2

def parseGenericAux (lines : List (List Char)) (userIds : List String) :
    List (ℕ × Item) :=
  genGo lines userIds (List.range lines.length) []

/-- `parseGenericReceipt` (`receiptParsers.ts`). -/
def parseGenericReceipt (text : String) (userIds : List String) : FinalizedReceipt :=
  let lines := splitReceiptLines text
  let totals := extractTotalsFromLines lines
  finalizeReceipt ((parseGenericAux lines userIds).map (fun p => p.2))
    totals.receiptTotal totals.taxAmount totals.totalAmount

end Splitly

namespace Splitly

/-! ## Gemini vision extraction (`imports/api/geminiOcr.ts`)

The network call `model.generateContent` is an oracle `gen : ℕ →
GenResponse` indexed by attempt number, and `JSON.parse` plus field
access is an oracle `parseJson`; everything else is embedded from the
source. -/

inductive FinishReason where
  | maxTokens
  | stop
  | safety
  | other (s : String)
deriving Repr, DecidableEq

def finishReasonText : FinishReason → String
  | .maxTokens => "MAX_TOKENS"
  | .stop => "STOP"
  | .safety => "SAFETY"
  | .other s => s

structure GenCandidate where
  finishReason : FinishReason
deriving Repr, DecidableEq

structure GenResponse where
  candidates : List GenCandidate
  text : List Char
deriving Repr, DecidableEq

structure GemItem where
  name : String
  price : ℚ
deriving Repr, DecidableEq

/-- The parsed JSON object's fields as the source reads them;
`items = none` models a missing or non-array `items` field. -/
structure GeminiJson where
  store : Option String
  date : Option String
  items : Option (List GemItem)
  subtotal : Option ℚ
  tax : Option ℚ
  total : Option ℚ
deriving Repr, DecidableEq

structure GeminiResult where
  success : Bool
  store : Option String
  date : Option String
  items : Option (List GemItem)
  subtotal : Option ℚ
  tax : Option ℚ
  total : Option ℚ
  error : Option String
deriving Repr, DecidableEq

/-- `WAL[-\s*]?MART` under `/i`. -/
def nsWalmartRE : RE := seqList [ciStrRE "WAL",
  .opt (.cls (fun c => c == '-' || isSpaceChar c || c == '*')), ciStrRE "MART"]

/-- `normalizeStoreName` (`geminiOcr.ts`): first matching pattern wins,
otherwise the trimmed input passes through. -/
def normalizeStoreName (storeName : String) : String :=
  let normalized := (trimChars storeName.toList)
  let upperNormalized := toUpperChars normalized
  let pats : List (RE × String) :=
    [(ciStrRE "HALAL", "Halal"), (ciStrRE "COSTCO", "Costco"),
     (nsWalmartRE, "Walmart"), (ciStrRE "TARGET", "Target"),
     (ciStrRE "KROGER", "Kroger"),
     (seqList [ciStrRE "FRESH", .star spaceRE, ciStrRE "THYME"], "Fresh Thyme"),
     (seqList [ciStrRE "DOLLAR", .star spaceRE, ciStrRE "GENERAL"], "Dollar General"),
     (seqList [ciStrRE "DOLLAR", .star spaceRE, ciStrRE "TREE"], "Dollar Tree")]
  match pats.find? (fun p => reTest p.1 upperNormalized) with
  | some p => p.2
  | none => normalized.asString

def backquoteChar : Char := Char.ofNat 96

/-- the `jsonfence-open` strip pattern: three backquotes, `json`, `\s*`,
anchored at the start -/
def fenceJsonOpenRE : RE := seqList [.bos, repExact (chr backquoteChar) 3,
  strRE "json", .star spaceRE]

/-- `\s*` then three backquotes at the end -/
def fenceCloseRE : RE := seqList [.star spaceRE, repExact (chr backquoteChar) 3, .eos]

/-- three backquotes then `\s*`, anchored at the start -/
def fenceOpenRE : RE := seqList [.bos, repExact (chr backquoteChar) 3, .star spaceRE]

/-- `/^data:image\/[a-z]+;base64,/` -/
def dataUriRE : RE := seqList [.bos, strRE "data:image/", plusRE lowerRE,
  strRE ";base64,"]

/-- `estimateStartingTokens` (`geminiOcr.ts`): tiered initial output
ceiling from the base64 payload size. -/
def estimateStartingTokens (base64Image : String) : ℕ :=
  let imageData := replaceFirst dataUriRE eraseRepl base64Image.toList
  let sizeKB : ℚ := (imageData.length : ℚ) * 3 / 4 / 1024
  if sizeKB < 100 then 2048
  else if sizeKB < 300 then 4096
  else if sizeKB < 600 then 6144
  else 8192

/-- `x || null` for an optional string (empty string is falsy). -/
def strOrNull (x : Option String) : Option String :=
  match x with
  | some s => if s == "" then none else some s
  | none => none

/-- `x || null` for an optional number (zero is falsy). -/
def numOrNull (x : Option ℚ) : Option ℚ :=
  match x with
  | some q => if q == 0 then none else some q
  | none => none

/-- `extractWithTokens` (`geminiOcr.ts`): returns `Except.error msg` for
a thrown `Error(msg)` and `.ok` for a returned value.  On `MAX_TOKENS`
the ceiling is doubled (capped at 8192) and the call recurses while the
new ceiling grew and fewer than 3 attempts were used; otherwise it
throws the "too complex" error.  A non-`STOP`, non-`MAX_TOKENS` finish
throws immediately.  On `STOP` the text is trimmed, markdown fences are
stripped, short text throws, `JSON.parse` failure throws (message
abstracted as "JSON.parse"), a missing/non-array `items` throws, and the
success record is assembled with JavaScript `||` defaulting. -/
def extractWithTokens (gen : ℕ → GenResponse)
    (parseJson : List Char → Option GeminiJson) (apiKeySet : Bool)
    (maxTokens : ℕ) (attempt : ℕ) : Except String GeminiResult :=
  if !apiKeySet then
    .ok { success := false, store := none, date := none, items := none,
          subtotal := none, tax := none, total := none,
          error := some "API key not configured" }
  else
    let resp := gen attempt
    if resp.candidates.isEmpty then
      .error "No response candidates from Gemini API"
    else
      let finishReason := (resp.candidates.headD ⟨.other ""⟩).finishReason
      if finishReason = .maxTokens then
        let nextTokens := min (maxTokens * 2) 8192
        if h : nextTokens > maxTokens ∧ attempt < 3 then
          extractWithTokens gen parseJson apiKeySet nextTokens (attempt + 1)
        else
          .error "Response exceeded max tokens even at 8192 (receipt too complex)"
      else if finishReason ≠ .stop then
        if finishReason = .safety then .error "Content blocked by safety filters"
        else .error ("Unexpected finish reason: " ++ finishReasonText finishReason)
      else
        let jsonText := trimChars resp.text
        let jsonText := replaceFirst fenceCloseRE eraseRepl
          (replaceFirst fenceJsonOpenRE eraseRepl jsonText)
        let jsonText := replaceFirst fenceCloseRE eraseRepl
          (replaceFirst fenceOpenRE eraseRepl jsonText)
        if jsonText.isEmpty || jsonText.length < 10 then
          .error "Empty or invalid response from Gemini"
        else
          match parseJson jsonText with
          | none => .error "JSON.parse"
          | some data =>
            if data.items.isNone then
              .error "Invalid response structure: missing items array"
            else
              .ok { success := true,
                    store := some (normalizeStoreName
                      (match data.store with
                       | some s => if s == "" then "Receipt" else s
                       | none => "Receipt")),
                    date := strOrNull data.date,
                    items := data.items,
                    subtotal := numOrNull data.subtotal,
                    tax := some (data.tax.getD 0),
                    total := numOrNull data.total,
                    error := none }
termination_by 3 - attempt
decreasing_by
  omega

/-- The `(attempt, maxOutputTokens)` pairs of the `generateContent`
calls `extractWithTokens` performs. -/
def geminiAttempts (gen : ℕ → GenResponse) (apiKeySet : Bool)
    (maxTokens : ℕ) (attempt : ℕ) : List (ℕ × ℕ) :=
  if !apiKeySet then []
  else
    let resp := gen attempt
    (attempt, maxTokens) ::
      (if resp.candidates.isEmpty then []
       else if (resp.candidates.headD ⟨.other ""⟩).finishReason = .maxTokens then
         let nextTokens := min (maxTokens * 2) 8192
         if h : nextTokens > maxTokens ∧ attempt < 3 then
           geminiAttempts gen apiKeySet nextTokens (attempt + 1)
         else []
       else [])
termination_by 3 - attempt
decreasing_by
  omega

/-- `extractReceiptWithGemini` (`geminiOcr.ts`): choose the starting
ceiling from the image size, run the retry loop, catch any thrown error
into a failure record. -/
def extractReceiptWithGemini (gen : ℕ → GenResponse)
    (parseJson : List Char → Option GeminiJson) (apiKeySet : Bool)
    (base64Image : String) : GeminiResult :=
  if !apiKeySet then
    { success := false, store := none, date := none, items := none,
      subtotal := none, tax := none, total := none,
      error := some "API key not configured" }
  else
    match extractWithTokens gen parseJson apiKeySet
        (estimateStartingTokens base64Image) 1 with
    | .ok r => r
    | .error msg =>
      { success := false, store := none, date := none, items := none,
        subtotal := none, tax := none, total := none, error := some msg }

end Splitly

namespace Splitly

/-! ## OCR trial loop (`recognizeText`, `imports/services/ocr/ocrService.js`)

Each `worker.recognize` call is an oracle datum `TrialData` (the
confidence and text Tesseract returned for that strategy's canvas); the
loop over the strategy list is embedded from the source.  Scores compare
`conf × sqrt(len) × (1 + 2 × priceCount)`; since `x ↦ x·|x|` is strictly
monotone and `(c·√n)·|c·√n| = c·|c|·n`, comparing the rational key
`c·|c|·n` is exactly comparing the real scores (proved below). -/

structure TrialData where
  confidence : ℚ
  text : String
deriving Repr, DecidableEq

/-- `/\$?\d+\.\d{2}/g` (price-like substrings). -/
def ocrPriceRE : RE := seqList [.opt (chr '$'), plusRE digitRE, chr '.',
  repExact digitRE 2]

def trialPriceCount (text : String) : ℕ := (reMatchAll ocrPriceRE text.toList).length

/-- The monotone key of the score `c·√n` where `c = conf·(1 + 2·prices)`:
`c·|c|·n`. -/
def scoreKey (conf : ℚ) (len : ℕ) (prices : ℕ) : ℚ :=
  let c := conf * (1 + 2 * (prices : ℚ))
  c * |c| * (len : ℚ)

/-- The loop of `recognizeText`: fold the trials, keeping the best
strictly-improving result of length ≥ 30, and break out early after a
trial with confidence > 70, at least 3 price matches and length ≥ 100.
Also counts how many trials were evaluated.  `bestKey` starts at the key
of the initial `bestScore = -1` (coefficient −1, length factor 1). -/
def recognizeGo : List TrialData → Option TrialData → ℚ → ℕ →
    Option TrialData × ℕ
  | [], best, _, count => (best, count)
  | t :: rest, best, bestKey, count =>
      let len := t.text.length
      let prices := trialPriceCount t.text
      let key := scoreKey t.confidence len prices
      let best2 := if key > bestKey ∧ len ≥ 30 then some t else best
      let bestKey2 := if key > bestKey ∧ len ≥ 30 then key else bestKey
      if t.confidence > 70 ∧ prices ≥ 3 ∧ len ≥ 100 then (best2, count + 1)
      else recognizeGo rest best2 bestKey2 (count + 1)

def recognizeTrials (trials : List TrialData) : Option TrialData × ℕ :=
  recognizeGo trials none (-1) 0

structure OcrOutcome where
  text : String
  confidence : ℚ
  success : Bool
  error : Option String
deriving Repr, DecidableEq

/-- `recognizeText` (`ocrService.js`): the strategy loop's best result,
or the caught "all strategies failed" error; `success` requires length
≥ 30 and confidence ≥ 15. -/
def recognizeText (trials : List TrialData) : OcrOutcome :=
  match (recognizeTrials trials).1 with
  | none =>
      { text := "", confidence := 0, success := false,
        error := some "All OCR strategies failed to produce valid results" }
  | some best =>
      { text := best.text, confidence := best.confidence,
        success := decide (best.text.length ≥ 30 ∧ best.confidence ≥ 15),
        error := none }

end Splitly

namespace Splitly

/-! ## Image preprocessing (`imagePreprocessing.js`)

Canvases live on an explicit heap (a list of canvases addressed by
index) so that in-place mutation through `putImageData` is visible.
Pixel stores go through `Uint8ClampedArray` semantics: clamp to
`[0, 255]` and round half to even. -/

structure Canvas where
  width : ℕ
  height : ℕ
  data : List ℕ
deriving Repr, DecidableEq

abbrev Heap := List Canvas

def heapGet (h : Heap) (r : ℕ) : Canvas := h.getD r ⟨0, 0, []⟩

def heapSet (h : Heap) (r : ℕ) (c : Canvas) : Heap := listModify h r (fun _ => c)

/-- `Uint8ClampedArray` store: clamp then round half to even. -/
def clampRound (x : ℚ) : ℕ :=
  if x ≤ 0 then 0
  else if 255 ≤ x then 255
  else
    let f := ⌊x⌋
    let r := x - (f : ℚ)
    (if r < 1 / 2 then f
     else if r > 1 / 2 then f + 1
     else if f % 2 = 0 then f else f + 1).toNat

/-- `_convertToGrayscale`: per 4-byte pixel, the luminance
`0.299·r + 0.587·g + 0.114·b` is written to the three colour channels. -/
def grayscaleGo : List ℕ → List ℕ
  | r :: g :: b :: a :: rest =>
      let gray : ℚ := 299 / 1000 * (r : ℚ) + 587 / 1000 * (g : ℚ) + 114 / 1000 * (b : ℚ)
      let v := clampRound gray
      v :: v :: v :: a :: grayscaleGo rest
  | l => l

/-- The red channel (every 4th byte), which `_enhanceContrast` scans. -/
def redChannel : List ℕ → List ℕ
  | r :: _ :: _ :: _ :: rest => r :: redChannel rest
  | _ => []

def stretchGo (mn : ℕ) (range : ℤ) : List ℕ → List ℕ
  | r :: _g :: _b :: a :: rest =>
      let stretched : ℚ := ((r : ℚ) - (mn : ℚ)) / (range : ℚ) * 255
      let v := clampRound stretched
      v :: v :: v :: a :: stretchGo mn range rest
  | l => l

/-- `_enhanceContrast`: min/max scan of the red channel (initialised to
255/0), then a histogram stretch when the range is positive. -/
def enhanceContrast (pixels : List ℕ) : List ℕ :=
  let reds := redChannel pixels
  let mn := reds.foldl (fun m v => if v < m then v else m) 255
  let mx := reds.foldl (fun m v => if v > m then v else m) 0
  let range : ℤ := (mx : ℤ) - (mn : ℤ)
  if range > 0 then stretchGo mn range pixels else pixels

def sharpenKernel : List ℤ := [0, -1, 0, -1, 5, -1, 0, -1, 0]

/-- Write one value to the three colour channels of the pixel starting
at flat index `idx`. -/
def setPixel3 (pixels : List ℕ) (idx : ℕ) (v : ℕ) : List ℕ :=
  listModify (listModify (listModify pixels idx (fun _ => v))
    (idx + 1) (fun _ => v)) (idx + 2) (fun _ => v)

/-- `_sharpenImage`: 3×3 convolution of the snapshot `tempData`, clamped
with `Math.max(0, Math.min(255, sum))`, written back per interior pixel. -/
def sharpenImage (pixels : List ℕ) (width height : ℕ) : List ℕ :=
  let tempData := pixels
  ((List.range' 1 (height - 2)).flatMap (fun y =>
      (List.range' 1 (width - 2)).map (fun x => (y, x)))).foldl
    (fun px (p : ℕ × ℕ) =>
      let sum := (((List.range 3).flatMap (fun ky =>
        (List.range 3).map (fun kx =>
          (tempData.getD (((p.1 + ky - 1) * width + (p.2 + kx - 1)) * 4) 0 : ℤ) *
            sharpenKernel.getD (ky * 3 + kx) 0))).sum)
      let idx := (p.1 * width + p.2) * 4
      let sharpened := max 0 (min 255 sum)
      setPixel3 px idx sharpened.toNat)
    pixels

/-- `_applyAdaptiveThreshold`: block-mean binarisation, `blockSize = 15`,
`C = 5`, computed over the array as it is being mutated (the source
reads and writes `pixels` in the same pass). -/
def applyAdaptiveThreshold (pixels : List ℕ) (width height : ℕ) : List ℕ :=
  ((List.range height).flatMap (fun y =>
      (List.range width).map (fun x => (y, x)))).foldl
    (fun px (p : ℕ × ℕ) =>
      let yStart := p.1 - 15
      let yEnd := min height (p.1 + 15)
      let xStart := p.2 - 15
      let xEnd := min width (p.2 + 15)
      let cells := (List.range' yStart (yEnd - yStart)).flatMap (fun by' =>
        (List.range' xStart (xEnd - xStart)).map (fun bx =>
          px.getD ((by' * width + bx) * 4) 0))
      let mean : ℚ := ((cells.sum : ℚ)) / (cells.length : ℚ)
      let idx := (p.1 * width + p.2) * 4
      let value := if (px.getD idx 0 : ℚ) > mean - 5 then 255 else 0
      setPixel3 px idx value)
    pixels

/-- The pixel pipeline of `preprocessForOCR`, in source order. -/
def preprocessPixels (skipThreshold : Bool) (c : Canvas) : Canvas :=
  let p1 := grayscaleGo c.data
  let p2 := enhanceContrast p1
  let p3 := sharpenImage p2 c.width c.height
  let p4 := if !skipThreshold then applyAdaptiveThreshold p3 c.width c.height else p3
  { c with data := p4 }

/-- `ImagePreprocessor.preprocessForOCR`: `getImageData` copies the
argument canvas's pixels, the pipeline transforms the copy, and
`putImageData(imageData, 0, 0)` writes it back into the argument canvas,
which is then returned — the returned reference IS the argument. -/
def preprocessForOCR (h : Heap) (r : ℕ) (skipThreshold : Bool) : Heap × ℕ :=
  (heapSet h r (preprocessPixels skipThreshold (heapGet h r)), r)

/-- `_cloneCanvas` (`ocrService.js`): allocate a fresh canvas and draw
the source into it. -/
def cloneCanvas (h : Heap) (r : ℕ) : Heap × ℕ := (h ++ [heapGet h r], h.length)

/-- The preprocessing prologue of `recognizeText` (`ocrService.js`
lines 33–41): clone the scaled canvas twice and preprocess each clone;
strategy 3 reuses the scaled canvas itself.  Returns the final heap and
the references `(processed1, processed2, processed3)`. -/
def ocrPreprocessPrologue (h : Heap) (scaledRef : ℕ) : Heap × ℕ × ℕ × ℕ :=
  let c1 := cloneCanvas h scaledRef
  let r1 := preprocessForOCR c1.1 c1.2 true
  let c2 := cloneCanvas r1.1 scaledRef
  let r2 := preprocessForOCR c2.1 c2.2 false
  (r2.1, r1.2, r2.2, scaledRef)

end Splitly

namespace Splitly

/-! ## Concrete inputs used to instantiate the properties -/

/-- Scenario B item: price 20, percent split 70/30. -/
def exPercentItem : Item :=
  { id := "i", name := "x", price := 20, userIds := [],
    splitType := some "percent",
    shares := some [⟨"A", "percent", 70⟩, ⟨"B", "percent", 30⟩] }

/-- Scenario D item: price 15, fixed split A:5, B:5. -/
def exFixedItem : Item :=
  { id := "i", name := "x", price := 15, userIds := [],
    splitType := some "fixed",
    shares := some [⟨"A", "fixed", 5⟩, ⟨"B", "fixed", 5⟩] }

/-- Scenario D bill. -/
def exFixedBill : BillDoc :=
  { idOpt := none, users := [⟨"A", "A"⟩, ⟨"B", "B"⟩], items := [exFixedItem],
    taxAmount := none, calculatedWithTax := none }

/-- An item tagged percent whose `shares` field is missing, with two
assigned users. -/
def exMissingSharesItem : Item :=
  { id := "i", name := "x", price := 10, userIds := ["A", "B"],
    splitType := some "percent", shares := none }

def exMissingSharesBill : BillDoc :=
  { idOpt := none, users := [], items := [exMissingSharesItem],
    taxAmount := none, calculatedWithTax := none }

/-- An item whose fixed shares are declared but all zero. -/
def exZeroFixedItem : Item :=
  { id := "i", name := "x", price := 10, userIds := [],
    splitType := some "fixed",
    shares := some [⟨"A", "fixed", 0⟩, ⟨"B", "fixed", 0⟩] }

def exZeroFixedBill : BillDoc :=
  { idOpt := none, users := [], items := [exZeroFixedItem],
    taxAmount := none, calculatedWithTax := none }

/-- A single ten-dollar item list for the reconciliation examples. -/
def exTenItems : List Item :=
  [{ id := "i", name := "x", price := 10, userIds := [],
     splitType := some "equal", shares := none }]

/-- A bill exercising the final rounding: 0.10 split equally three ways. -/
def exThirdsBill : BillDoc :=
  { idOpt := none, users := [⟨"A", "A"⟩, ⟨"B", "B"⟩, ⟨"C", "C"⟩],
    items := [{ id := "i", name := "x", price := 1 / 10,
                userIds := ["A", "B", "C"], splitType := some "equal",
                shares := none }],
    taxAmount := none, calculatedWithTax := none }

/-- An always-truncating generation oracle. -/
def exTruncGen : ℕ → GenResponse := fun _ => ⟨[⟨.maxTokens⟩], []⟩

/-- The Scenario E weight-calculation line. -/
def exWeightLine : List Char := "2.38 lb @ 1.0 lb /1.12  2.67".toList

/-- A two-line receipt whose second line is the weight-calculation line. -/
def exWeightLines : List (List Char) := ["HALAL MARKET".toList, exWeightLine]

/-- A high-scoring first trial that does not meet the early-exit bar
(confidence exactly 70): 116 characters, 3 price-like substrings. -/
def exTrial1 : TrialData :=
  ⟨70, "aaaaaaaaaaaaaaaaaaaaaaaaaaaaaaaaaaaaaaaa 1.00 2.00 3.00 aaaaaaaaaaaaaaaaaaaaaaaaaaaaaaaaaaaaaaaaaaaaaaaaaaaaaaaaaaaa"⟩

/-- A lower-scoring second trial that does meet the early-exit bar:
confidence 71, exactly 100 characters, 3 price-like substrings. -/
def exTrial2 : TrialData :=
  ⟨71, "bbbbbbbbbbbbbbbbbbbbbbbbbbbbbbbbbbbbbbbbbbbbbbbbbbbbbbbbbbbbbbbbbbbbbbbbbbbbbbbbbbbbb 1.00 2.00 3.00"⟩

/-- The early-exit condition of the trial loop. -/
def earlyExitTrial (t : TrialData) : Prop :=
  t.confidence > 70 ∧ trialPriceCount t.text ≥ 3 ∧ t.text.length ≥ 100

/-- The empty-shares probe item for the C4 witness. -/
def exEmptySharesItem : Item :=
  { id := "i", name := "x", price := 10, userIds := ["A"],
    splitType := some "percent", shares := some [] }

/-- A one-canvas heap: a single pixel with distinct colour channels. -/
def exHeap : Heap := [⟨1, 1, [10, 20, 30, 255]⟩]

end Splitly

namespace Splitly

/-! ## Arithmetic facts about cent rounding -/

theorem isCent_round2 (x : ℚ) : IsCent (round2 x) := by
  refine ⟨round (x * 100), ?_⟩
  unfold round2
  field_simp

theorem round2_eq_self {q : ℚ} (h : IsCent q) : round2 q = q := by
  obtain ⟨n, hn⟩ := h
  unfold round2
  rw [hn, round_intCast]
  field_simp [← hn]

theorem IsCent.add {a b : ℚ} (ha : IsCent a) (hb : IsCent b) : IsCent (a + b) := by
  obtain ⟨m, hm⟩ := ha; obtain ⟨n, hn⟩ := hb
  exact ⟨m + n, by push_cast [add_mul, hm, hn]; ring⟩

theorem IsCent.sub {a b : ℚ} (ha : IsCent a) (hb : IsCent b) : IsCent (a - b) := by
  obtain ⟨m, hm⟩ := ha; obtain ⟨n, hn⟩ := hb
  exact ⟨m - n, by push_cast [sub_mul, hm, hn]; ring⟩

theorem IsCent.eq_zero_of_abs_lt {d : ℚ} (hd : IsCent d) (h : |d| < 1 / 100) : d = 0 := by
  obtain ⟨n, hn⟩ := hd
  have h100 : |d * 100| < 1 := by
    rw [abs_mul]
    have : |(100 : ℚ)| = 100 := by norm_num
    rw [this]
    linarith [abs_nonneg d, h]
  rw [hn] at h100
  have habs : |n| < 1 := by exact_mod_cast h100
  have hn0 : n = 0 := Int.abs_lt_one_iff.mp habs
  have : d * 100 = 0 := by rw [hn, hn0]; norm_num
  linarith [this]

theorem isCent_sum_list {l : List ℚ} (h : ∀ q ∈ l, IsCent q) : IsCent l.sum := by
  induction l with
  | nil => exact ⟨0, by norm_num⟩
  | cons a t ih =>
      simp only [List.sum_cons]
      exact (h a (List.mem_cons_self a t)).add (ih fun q hq => h q (List.mem_cons_of_mem a hq))

end Splitly

namespace Splitly

/-! ## C2 — percent shares are rescaled against their own sum -/

/-- C2: for an item with a percent split whose declared percentages have
a positive sum, the engine's per-share allocations are exactly
`price × value / sum(values)` — i.e. each raw percentage is rescaled by
`100 / sum` before application — and consequently the ratio between any
two participants' allocated amounts equals the ratio of their declared
percentages (stated as equality of cross products). -/
theorem percent_rescaled_allocations (item : Item) (l : List ItemSplitShare)
    (ht : item.splitType = some "percent") (hs : item.shares = some l)
    (hsum : 0 < (((l.filter (fun s => s.type == "percent")).map
      (fun s => s.value)).sum)) :
    itemContribs item = (l.filter (fun s => s.type == "percent")).map
      (fun s => (s.userId, item.price * s.value /
        (((l.filter (fun s => s.type == "percent")).map (fun s => s.value)).sum))) ∧
    (∀ s ∈ l.filter (fun s => s.type == "percent"),
     ∀ t ∈ l.filter (fun s => s.type == "percent"),
      (item.price * s.value /
        (((l.filter (fun s => s.type == "percent")).map (fun s => s.value)).sum)) *
          t.value =
      (item.price * t.value /
        (((l.filter (fun s => s.type == "percent")).map (fun s => s.value)).sum)) *
          s.value) := by
  constructor
  · unfold itemContribs
    rw [ht, hs]
    simp only [Option.isSome_some, Bool.and_true, Option.getD_some]
    have hbeq : (some "percent" == some "percent") = true := by decide
    rw [hbeq]
    simp only [if_true]
    set ps := l.filter (fun s => s.type == "percent") with hps
    set S := (ps.map (fun s => s.value)).sum with hS
    have hSne : S ≠ 0 := ne_of_gt hsum
    have hZ : (S == 0) = false := by
      simp [beq_iff_eq, hSne]
    rw [hZ]
    simp only [Bool.false_eq_true, if_false]
    apply List.map_congr_left
    intro s _
    have : item.price * (s.value * (100 / S) / 100) = item.price * s.value / S := by
      field_simp
      ring
    rw [this]
  · intro s _ t _
    field_simp
    ring

/-- Witness for C2 at Scenario B (price 20, percent 70/30): the
allocations are exactly 14 and 6. -/
theorem percent_rescaled_allocations_witness :
    exPercentItem.splitType = some "percent" ∧
    itemContribs exPercentItem = [("A", 14), ("B", 6)] := by
  refine ⟨rfl, ?_⟩
  have h := percent_rescaled_allocations exPercentItem
    [⟨"A", "percent", 70⟩, ⟨"B", "percent", 30⟩] rfl rfl (by norm_num)
  rw [h.1]
  norm_num [exPercentItem]

end Splitly

namespace Splitly

/-! ## C3 — fixed-split shortfall is distributed evenly -/

/-- C3: for an item with a fixed split, a non-empty fixed share list and
declared amounts summing to less than the item price, the engine credits
each share its declared amount plus an even `shortfall / n` extra, and
the sum of all contributions is exactly the item price. -/
theorem fixed_shortfall_distributed (item : Item) (l : List ItemSplitShare)
    (ht : item.splitType = some "fixed") (hs : item.shares = some l)
    (hne : l.filter (fun s => s.type == "fixed") ≠ [])
    (hlt : (((l.filter (fun s => s.type == "fixed")).map
      (fun s => s.value)).sum) < item.price) :
    itemContribs item =
      (l.filter (fun s => s.type == "fixed")).map (fun s => (s.userId, s.value)) ++
      (l.filter (fun s => s.type == "fixed")).map (fun s => (s.userId,
        (item.price - (((l.filter (fun s => s.type == "fixed")).map
          (fun s => s.value)).sum)) /
          ((l.filter (fun s => s.type == "fixed")).length : ℚ))) ∧
    ((itemContribs item).map (fun p => p.2)).sum = item.price := by
  have hmain : itemContribs item =
      (l.filter (fun s => s.type == "fixed")).map (fun s => (s.userId, s.value)) ++
      (l.filter (fun s => s.type == "fixed")).map (fun s => (s.userId,
        (item.price - (((l.filter (fun s => s.type == "fixed")).map
          (fun s => s.value)).sum)) /
          ((l.filter (fun s => s.type == "fixed")).length : ℚ))) := by
    unfold itemContribs
    rw [ht, hs]
    have hb1 : (some "fixed" == some "percent") = false := by decide
    have hb2 : (some "fixed" == some "fixed") = true := by decide
    simp only [hb1, hb2, Option.isSome_some, Bool.false_and, Bool.and_true,
      Bool.false_eq_true, if_false, if_true, Option.getD_some]
    set fs := l.filter (fun s => s.type == "fixed") with hfs
    set S := (fs.map (fun s => s.value)).sum with hS
    have h0 : (0 : ℚ) < item.price - S := by linarith
    have hrem : (0 : ℚ) ⊔ (item.price - S) = item.price - S :=
      max_eq_right (le_of_lt h0)
    have hemp : fs.isEmpty = false := by
      obtain ⟨a, t, hcons⟩ := List.exists_cons_of_ne_nil hne
      rw [hcons]
      rfl
    simp only [hrem, hemp, Bool.not_false, Bool.and_true, decide_eq_true_eq]
    rw [if_pos h0]
  refine ⟨hmain, ?_⟩
  rw [hmain]
  set fs := l.filter (fun s => s.type == "fixed") with hfs
  set S := (fs.map (fun s => s.value)).sum with hS
  have hn : fs.length ≠ 0 := by
    intro h
    exact hne (List.length_eq_zero.mp h)
  rw [List.map_append, List.sum_append, List.map_map, List.map_map]
  have h1 : (fs.map ((fun p : String × ℚ => p.2) ∘ fun s => (s.userId, s.value)))
      = fs.map (fun s => s.value) := rfl
  have h2 : (fs.map ((fun p : String × ℚ => p.2) ∘ fun s =>
      (s.userId, (item.price - S) / (fs.length : ℚ))))
      = List.replicate fs.length ((item.price - S) / (fs.length : ℚ)) := by
    rw [← List.map_const']
    rfl
  rw [h1, h2, List.sum_replicate, nsmul_eq_mul]
  have hq : (fs.length : ℚ) ≠ 0 := Nat.cast_ne_zero.mpr hn
  field_simp

/-- Witness for C3 at Scenario D (price 15, fixed A:5 B:5): shortfall 5
is split evenly, each share totals 7.50, and the whole price is
accounted for; through `computeExpenseSummary` the per-user amounts are
exactly 7.50 each. -/
theorem fixed_shortfall_distributed_witness :
    (([⟨"A", "fixed", 5⟩, ⟨"B", "fixed", (5 : ℚ)⟩] : List ItemSplitShare).filter
        (fun s => s.type == "fixed") ≠ [] ∧
      itemContribs exFixedItem =
        [("A", 5), ("B", 5)] ++ [("A", 5 / 2), ("B", 5 / 2)] ∧
      ((itemContribs exFixedItem).map (fun p => p.2)).sum = 15) ∧
    (computeExpenseSummary exFixedBill).perUser =
      [⟨"A", 15 / 2⟩, ⟨"B", 15 / 2⟩] := by
  constructor
  · have h := fixed_shortfall_distributed exFixedItem
      [⟨"A", "fixed", 5⟩, ⟨"B", "fixed", 5⟩] rfl rfl
      (by decide) (by norm_num [exFixedItem])
    refine ⟨by decide, ?_, ?_⟩
    · rw [h.1]
      norm_num [exFixedItem]
    · rw [h.2]
      norm_num [exFixedItem]
  · with_unfolding_all rfl

end Splitly

namespace Splitly

/-! ## C4 — malformed split rules -/

/-- C4 counterexample: an item tagged `percent` whose `shares` field is
missing is NOT treated as zero contribution — the engine falls back to
an equal split across the item's `userIds`, so each of A and B owes
5.00 of the 10.00 item. -/
theorem missing_shares_not_zero_counterexample :
    (computeExpenseSummary exMissingSharesBill).perUser =
      [⟨"A", 5⟩, ⟨"B", 5⟩] ∧
    (computeExpenseSummary exZeroFixedBill).perUser =
      [⟨"A", 5⟩, ⟨"B", 5⟩] ∧
    (5 : ℚ) ≠ 0 := by
  refine ⟨by with_unfolding_all rfl, by with_unfolding_all rfl, by norm_num⟩

/-- C4 amended: `computeExpenseSummary` is total (it returns a summary
for every bill, never throwing); an item tagged percent or fixed with a
present-but-empty shares list contributes nothing; an item whose shares
field is missing falls back to the equal split across its `userIds`
(and so contributes nothing exactly when `userIds` is empty). -/
theorem malformed_split_rules_degrade :
    (∀ bill : BillDoc, ∃ s : ExpenseSummary, computeExpenseSummary bill = s ∧
      s.grandTotal = round2 ((bill.items.map (fun it => it.price)).sum)) ∧
    (∀ item : Item, (item.splitType = some "percent" ∨
        item.splitType = some "fixed") → item.shares = some [] →
      itemContribs item = []) ∧
    (∀ item : Item, item.shares = none →
      itemContribs item =
        (if item.userIds.isEmpty then [] else
          item.userIds.map (fun uid =>
            (uid, item.price / (item.userIds.length : ℚ))))) := by
  refine ⟨fun bill => ⟨computeExpenseSummary bill, rfl, rfl⟩, ?_, ?_⟩
  · intro item ht hs
    unfold itemContribs
    rw [hs]
    rcases ht with ht | ht <;> rw [ht] <;> simp
  · intro item hs
    unfold itemContribs
    rw [hs]
    simp only [Option.isSome_none, Bool.and_false, Bool.false_eq_true, if_false]
    by_cases hu : item.userIds.isEmpty
    · rw [if_pos hu]
      simp [hu]
    · rw [if_neg hu]
      simp [hu]

/-- Witness for C4 amended at the empty-shares item. -/
theorem malformed_split_rules_degrade_witness :
    itemContribs exEmptySharesItem = [] :=
  malformed_split_rules_degrade.2.1 exEmptySharesItem (Or.inl rfl) rfl

end Splitly

namespace Splitly

/-! ## C5 — totals-mismatch flags and the 0.05 tolerance -/

/-- C5 counterexample: with a declared receipt total of 0 the stored
flag is the JavaScript number `0` (the falsy left operand of `&&`), not
a boolean — although the computed total differs from the declared one by
far more than 0.05, so the claim would require the flag `true`. -/
theorem mismatch_flag_not_boolean_counterexample :
    (persistedTotals exTenItems (some 0) 0 none none).totalMismatch = .jnum 0 ∧
    |round2 ((exTenItems.map (fun it => it.price)).sum) - 0| > 5 / 100 ∧
    (persistedTotals exTenItems (some 0) 0 none none).totalMismatch ≠
      .jbool true := by
  refine ⟨by with_unfolding_all rfl, by norm_num [exTenItems, round2], ?_⟩
  intro h
  have : JsVal.jnum 0 = JsVal.jbool true := by
    rw [← h]
    with_unfolding_all rfl
  exact JsVal.noConfusion this

/-- C5 amended: whenever the declared total is present and non-zero, the
stored flags are booleans that are `false` exactly when the absolute
difference between the computed total (cent-rounded item sum, plus tax
for the with-tax flag) and the declared total is at most 0.05; a
declared total that is absent (`null`) or zero short-circuits `&&` and
stores the falsy declared value itself instead of a boolean. -/
theorem mismatch_flag_tolerance (items : List Item) (receiptTotal : Option ℚ)
    (taxAmount : ℚ) (totalAmount : Option ℚ) (storeName : Option String)
    (r t : ℚ) (hr : receiptTotal = some r) (hr0 : r ≠ 0)
    (ht : totalAmount = some t) (ht0 : t ≠ 0) :
    (persistedTotals items receiptTotal taxAmount totalAmount storeName).totalMismatch
      = .jbool
        (|round2 ((items.map (fun it => it.price)).sum) - r| > 5 / 100) ∧
    (persistedTotals items receiptTotal taxAmount totalAmount storeName).totalWithTaxMismatch
      = .jbool
        (|round2 (round2 ((items.map (fun it => it.price)).sum) + taxAmount) - t|
          > 5 / 100) := by
  unfold persistedTotals andFlag
  rw [hr, ht]
  have hbr : (r == 0) = false := by simp [beq_iff_eq, hr0]
  have hbt : (t == 0) = false := by simp [beq_iff_eq, ht0]
  simp [hbr, hbt]

/-- Witness for C5 at the tolerance boundary: a 10.00 item list against
a declared 10.05 total is not flagged (difference exactly 0.05), and
against a declared 10.0501 total is flagged. -/
theorem mismatch_flag_tolerance_witness :
    ((some (1005 / 100 : ℚ) ≠ (none : Option ℚ)) ∧
      (persistedTotals exTenItems (some (1005 / 100)) 0 (some 1) none).totalMismatch
        = .jbool false) ∧
    (persistedTotals exTenItems (some (100501 / 10000)) 0 (some 1) none).totalMismatch
      = .jbool true := by
  have h10 : round2 ((exTenItems.map (fun it => it.price)).sum) = 10 := by
    have hsum : ((exTenItems.map (fun it => it.price)).sum : ℚ) = 10 := by
      norm_num [exTenItems]
    rw [hsum, round2_eq_self ⟨1000, by norm_num⟩]
  constructor
  · refine ⟨by simp, ?_⟩
    have h := (mismatch_flag_tolerance exTenItems (some (1005 / 100)) 0
      (some 1) none (1005 / 100) 1 rfl (by norm_num) rfl (by norm_num)).1
    rw [h, h10]
    have hnot : ¬ ((|(10 : ℚ) - 1005 / 100| > 5 / 100)) := by
      rw [abs_sub_comm, abs_of_pos (by norm_num)]
      norm_num
    simp [hnot]
  · have h := (mismatch_flag_tolerance exTenItems (some (100501 / 10000)) 0
      (some 1) none (100501 / 10000) 1 rfl (by norm_num) rfl (by norm_num)).1
    rw [h, h10]
    have hyes : (|(10 : ℚ) - 100501 / 10000| > 5 / 100) := by
      rw [abs_sub_comm, abs_of_pos (by norm_num)]
      norm_num
    simp [hyes]

end Splitly

namespace Splitly

/-! ## C10 — a price match at index 0 is never selected -/

/-- C10: `extractPriceFromLine` never selects a match that starts at
character position 0 (the `if (!match.index) continue` guard), so every
returned price has index ≥ 1, and a line whose candidate matches all
start at position 0 yields no price at all. -/
theorem price_index_zero_skipped :
    (∀ (line : List Char) (p : ℚ) (idx : ℕ),
      extractPriceFromLine line = some (p, idx) → 1 ≤ idx) ∧
    (∀ line : List Char, (∀ m ∈ allPriceMatches line, m.1 = 0) →
      extractPriceFromLine line = none) := by
  have hfold : ∀ (ms : List (ℕ × ℚ)) (acc : Option ℚ × ℕ),
      (acc.1.isSome → 1 ≤ acc.2) →
      ((ms.foldl priceFoldStep acc).1.isSome → 1 ≤ (ms.foldl priceFoldStep acc).2) := by
    intro ms
    induction ms with
    | nil => intro acc h; exact h
    | cons m rest ih =>
        intro acc h
        simp only [List.foldl_cons]
        unfold priceFoldStep
        by_cases h0 : (m.1 == 0) = true
        · rw [if_pos h0]
          exact ih acc h
        · rw [if_neg h0]
          by_cases hc : (m.2 > 0 && m.2 < 1000 && m.1 ≥ acc.2) = true
          · rw [if_pos hc]
            refine ih (some m.2, m.1) ?_
            intro _
            have hne : m.1 ≠ 0 := by
              intro he
              exact h0 (by simp [he])
            omega
          · rw [if_neg hc]
            exact ih acc h
  have hzero : ∀ (ms : List (ℕ × ℚ)) (acc : Option ℚ × ℕ),
      (∀ m ∈ ms, m.1 = 0) → ms.foldl priceFoldStep acc = acc := by
    intro ms
    induction ms with
    | nil => intro acc _; rfl
    | cons m rest ih =>
        intro acc h
        simp only [List.foldl_cons]
        have h0 : priceFoldStep acc m = acc := by
          unfold priceFoldStep
          rw [if_pos (by simp [h m (List.mem_cons_self m rest)])]
        rw [h0]
        exact ih acc fun x hx => h x (List.mem_cons_of_mem m hx)
  constructor
  · intro line p idx hres
    unfold extractPriceFromLine at hres
    have hinv := hfold (allPriceMatches line) (none, 0) (by intro h; simp at h)
    rcases hfr : (allPriceMatches line).foldl priceFoldStep (none, 0) with ⟨o, i⟩
    rw [hfr] at hres hinv
    cases o with
    | none => exact absurd hres (by simp)
    | some q =>
        simp only [Option.isSome_some, forall_const] at hinv
        have : idx = i := by
          have := hres
          simp only [] at this
          cases this
          rfl
        omega
  · intro line hall
    unfold extractPriceFromLine
    rw [hzero (allPriceMatches line) (none, 0) hall]

/-- Witness for C10: `extractPriceFromLine` on the bare-price line
`4.99` (only match, at index 0) yields nothing, while the same price
preceded by a name is selected at index 2 ≥ 1. -/
theorem price_index_zero_skipped_witness :
    extractPriceFromLine "4.99".toList = none ∧
    (extractPriceFromLine "A 4.99".toList = some (499 / 100, 2) ∧
      1 ≤ 2) := by
  refine ⟨?_, by with_unfolding_all rfl, ?_⟩
  · apply price_index_zero_skipped.2
    intro m hm
    have hv : allPriceMatches "4.99".toList = [(0, 499 / 100)] := by
      with_unfolding_all rfl
    rw [hv, List.mem_singleton] at hm
    rw [hm]
  · exact price_index_zero_skipped.1 "A 4.99".toList (499 / 100) 2
      (by with_unfolding_all rfl)

end Splitly

namespace Splitly

/-- Helper: a successful `extractWithTokens` run (with the API key set)
must have seen a `STOP` finish at some attempt. -/
theorem gemini_success_has_stop (n : ℕ) : ∀ (attempt maxTokens : ℕ),
    3 - attempt ≤ n → ∀ (gen : ℕ → GenResponse)
    (pj : List Char → Option GeminiJson) (r : GeminiResult),
    extractWithTokens gen pj true maxTokens attempt = .ok r →
    r.success = true →
    ∃ k, ((gen k).candidates.headD ⟨.other ""⟩).finishReason = .stop := by
  induction n with
  | zero =>
      intro attempt maxTokens hn gen pj r hok hsucc
      rw [extractWithTokens] at hok
      simp only [Bool.not_true, Bool.false_eq_true, if_false] at hok
      by_cases he : (gen attempt).candidates.isEmpty
      · rw [if_pos he] at hok
        cases hok
      · rw [if_neg he] at hok
        by_cases hm : ((gen attempt).candidates.headD ⟨.other ""⟩).finishReason
            = .maxTokens
        · rw [if_pos hm] at hok
          have hlt : ¬ (min (maxTokens * 2) 8192 > maxTokens ∧ attempt < 3) := by
            intro hc
            omega
          rw [dif_neg hlt] at hok
          cases hok
        · rw [if_neg hm] at hok
          by_cases hs : ((gen attempt).candidates.headD ⟨.other ""⟩).finishReason
              ≠ .stop
          · rw [if_pos hs] at hok
            by_cases hsf : ((gen attempt).candidates.headD ⟨.other ""⟩).finishReason
                = .safety
            · rw [if_pos hsf] at hok; cases hok
            · rw [if_neg hsf] at hok; cases hok
          · exact ⟨attempt, not_not.mp hs⟩
  | succ n ih =>
      intro attempt maxTokens hn gen pj r hok hsucc
      rw [extractWithTokens] at hok
      simp only [Bool.not_true, Bool.false_eq_true, if_false] at hok
      by_cases he : (gen attempt).candidates.isEmpty
      · rw [if_pos he] at hok
        cases hok
      · rw [if_neg he] at hok
        by_cases hm : ((gen attempt).candidates.headD ⟨.other ""⟩).finishReason
            = .maxTokens
        · rw [if_pos hm] at hok
          by_cases hc : (min (maxTokens * 2) 8192 > maxTokens ∧ attempt < 3)
          · rw [dif_pos hc] at hok
            exact ih (attempt + 1) (min (maxTokens * 2) 8192)
              (by omega) gen pj r hok hsucc
          · rw [dif_neg hc] at hok
            cases hok
        · rw [if_neg hm] at hok
          by_cases hs : ((gen attempt).candidates.headD ⟨.other ""⟩).finishReason
              ≠ .stop
          · rw [if_pos hs] at hok
            by_cases hsf : ((gen attempt).candidates.headD ⟨.other ""⟩).finishReason
                = .safety
            · rw [if_pos hsf] at hok; cases hok
            · rw [if_neg hsf] at hok; cases hok
          · exact ⟨attempt, not_not.mp hs⟩

end Splitly

namespace Splitly

/-- C6: if every generation attempt ends with the truncation finish
reason `MAX_TOKENS`, a call starting at a 2048-token ceiling performs
exactly the attempts (1, 2048), (2, 4096), (3, 8192) — doubling the
ceiling, capped at 8192, at most 3 attempts — and then throws the
"too complex" error; and in general a truncated generation is never
returned as a success: any successful result comes from an attempt that
finished with `STOP`. -/
theorem truncation_retry_schedule :
    (∀ (gen : ℕ → GenResponse) (pj : List Char → Option GeminiJson),
      (∀ k, (gen k).candidates ≠ [] ∧
        ((gen k).candidates.headD ⟨.other ""⟩).finishReason = .maxTokens) →
      extractWithTokens gen pj true 2048 1 =
        .error "Response exceeded max tokens even at 8192 (receipt too complex)" ∧
      geminiAttempts gen true 2048 1 = [(1, 2048), (2, 4096), (3, 8192)]) ∧
    (∀ (gen : ℕ → GenResponse) (pj : List Char → Option GeminiJson)
      (maxTokens attempt : ℕ) (r : GeminiResult),
      extractWithTokens gen pj true maxTokens attempt = .ok r →
      r.success = true →
      ∃ k, ((gen k).candidates.headD ⟨.other ""⟩).finishReason = .stop) := by
  constructor
  · intro gen pj h
    have he : ∀ k, (gen k).candidates.isEmpty = false := by
      intro k
      rcases h k with ⟨hne, _⟩
      cases hc : (gen k).candidates with
      | nil => exact absurd hc hne
      | cons a t => rfl
    have hm : ∀ k, ((gen k).candidates.headD ⟨.other ""⟩).finishReason
        = .maxTokens := fun k => (h k).2
    constructor
    · rw [extractWithTokens]
      simp only [Bool.not_true, Bool.false_eq_true, if_false, he 1, hm 1,
        if_true, if_pos]
      rw [dif_pos (by norm_num)]
      rw [extractWithTokens]
      simp only [Bool.not_true, Bool.false_eq_true, if_false, he 2, hm 2,
        if_true, if_pos]
      rw [dif_pos (by norm_num)]
      rw [extractWithTokens]
      simp only [Bool.not_true, Bool.false_eq_true, if_false, he 3, hm 3,
        if_true, if_pos]
      rw [dif_neg (by norm_num)]
    · rw [geminiAttempts]
      simp only [Bool.not_true, Bool.false_eq_true, if_false, he 1, hm 1,
        if_true, if_pos]
      rw [dif_pos (by norm_num)]
      rw [geminiAttempts]
      simp only [Bool.not_true, Bool.false_eq_true, if_false, he 2, hm 2,
        if_true, if_pos]
      rw [dif_pos (by norm_num)]
      rw [geminiAttempts]
      simp only [Bool.not_true, Bool.false_eq_true, if_false, he 3, hm 3,
        if_true, if_pos]
      rw [dif_neg (by norm_num)]
      norm_num
  · intro gen pj maxTokens attempt r hok hsucc
    exact gemini_success_has_stop (3 - attempt) attempt maxTokens le_rfl
      gen pj r hok hsucc

/-- Witness for C6 at the always-truncating oracle. -/
theorem truncation_retry_schedule_witness :
    extractWithTokens exTruncGen (fun _ => none) true 2048 1 =
      .error "Response exceeded max tokens even at 8192 (receipt too complex)" ∧
    geminiAttempts exTruncGen true 2048 1 = [(1, 2048), (2, 4096), (3, 8192)] :=
  truncation_retry_schedule.1 exTruncGen (fun _ => none)
    (fun _ => ⟨by simp [exTruncGen], rfl⟩)

end Splitly

namespace Splitly

theorem listModify_length (l : List α) (i : ℕ) (f : α → α) :
    (listModify l i f).length = l.length := by
  induction l generalizing i with
  | nil => rfl
  | cons x rest ih =>
      cases i with
      | zero => rfl
      | succ j => simpa [listModify] using ih j

theorem listModify_getD_ne (l : List α) (i j : ℕ) (f : α → α) (d : α)
    (hij : i ≠ j) : (listModify l i f).getD j d = l.getD j d := by
  induction l generalizing i j with
  | nil => rfl
  | cons x rest ih =>
      cases i with
      | zero =>
          cases j with
          | zero => exact absurd rfl hij
          | succ j' => rfl
      | succ i' =>
          cases j with
          | zero => rfl
          | succ j' => simpa [listModify] using ih i' j' (by omega)

theorem heapGet_set_ne (h : Heap) (r r' : ℕ) (c : Canvas) (hne : r' ≠ r) :
    heapGet (heapSet h r' c) r = heapGet h r :=
  listModify_getD_ne h r' r _ _ hne

theorem heapGet_append_left (h : Heap) (c : Canvas) (r : ℕ) (hr : r < h.length) :
    heapGet (h ++ [c]) r = heapGet h r := by
  unfold heapGet
  rw [List.getD_append _ _ _ _ hr]

theorem heapSet_length (h : Heap) (r : ℕ) (c : Canvas) :
    (heapSet h r c).length = h.length :=
  listModify_length h r _

/-- C9 counterexample: on a one-canvas heap holding a single pixel with
distinct colour channels, `preprocessForOCR` returns its argument
canvas's reference (not a new buffer) and the caller's canvas pixel
data has been overwritten in place. -/
theorem preprocess_mutates_argument_counterexample :
    (preprocessForOCR exHeap 0 true).2 = 0 ∧
    heapGet (preprocessForOCR exHeap 0 true).1 0 ≠ heapGet exHeap 0 := by
  constructor
  · rfl
  · intro hcontra
    have h1 : heapGet (preprocessForOCR exHeap 0 true).1 0 =
        ⟨1, 1, [18, 18, 18, 255]⟩ := by with_unfolding_all rfl
    have h2 : heapGet exHeap 0 = ⟨1, 1, [10, 20, 30, 255]⟩ := by
      with_unfolding_all rfl
    rw [h1, h2] at hcontra
    cases hcontra

/-- C9 amended: `preprocessForOCR` always returns the very canvas
reference it was given (mutating it in place), and the `recognizeText`
caller protects its original: after the preprocessing prologue (clone,
enhance, clone, enhance) the scaled canvas's pixel data is unchanged,
because the enhancement ran only on the two fresh clones. -/
theorem preprocess_clone_protects_original (h : Heap) (r : ℕ)
    (hr : r < h.length) :
    (∀ (h' : Heap) (r' : ℕ) (skip : Bool), (preprocessForOCR h' r' skip).2 = r') ∧
    heapGet (ocrPreprocessPrologue h r).1 r = heapGet h r ∧
    (ocrPreprocessPrologue h r).2.2.2 = r := by
  refine ⟨fun _ _ _ => rfl, ?_, rfl⟩
  unfold ocrPreprocessPrologue cloneCanvas preprocessForOCR
  simp only []
  rw [heapGet_set_ne _ _ _ _ (by
    rw [heapSet_length, List.length_append]
    omega)]
  rw [heapGet_append_left _ _ _ (by rw [heapSet_length, List.length_append]; omega)]
  rw [heapGet_set_ne _ _ _ _ (by omega)]
  rw [heapGet_append_left _ _ _ hr]

/-- Witness for C9 amended at the one-canvas heap. -/
theorem preprocess_clone_protects_original_witness :
    0 < exHeap.length ∧
    heapGet (ocrPreprocessPrologue exHeap 0).1 0 = heapGet exHeap 0 := by
  refine ⟨by norm_num [exHeap], ?_⟩
  exact (preprocess_clone_protects_original exHeap 0 (by norm_num [exHeap])).2.1

end Splitly

namespace Splitly

/-- Every item the Walmart loop pushes is tagged with a loop index whose
line passes the skip-classifier. -/
theorem wmGo_tag_not_skipped (lines : List (List Char)) (userIds : List String) :
    ∀ (idxs used : List ℕ) (p : ℕ × Item), p ∈ wmGo lines userIds idxs used →
      skipLine (lines.getD p.1 []) = false := by
  intro idxs
  induction idxs with
  | nil => intro used p hp; cases hp
  | cons i rest ih =>
      intro used p hp
      rw [wmGo] at hp
      by_cases hu : used.contains i
      · rw [if_pos hu] at hp
        exact ih used p hp
      · rw [if_neg hu] at hp
        simp only [] at hp
        by_cases hsk : (skipLine (lines.getD i []) ||
            reTest wmSummaryRE (toUpperChars (lines.getD i []))) = true
        · rw [if_pos hsk] at hp
          exact ih used p hp
        · rw [if_neg hsk] at hp
          have hskf : skipLine (lines.getD i []) = false := by
            rcases Bool.or_eq_false_iff.mp (Bool.eq_false_iff.mpr hsk) with ⟨h1, _⟩
            exact h1
          by_cases hwq : (reTest wmWeightCalcRE (lines.getD i []) ||
              reTest wmQtyCalcRE (lines.getD i [])) = true
          · rw [if_pos hwq] at hp
            exact ih used p hp
          · rw [if_neg hwq] at hp
            rcases hb : (wmBody lines userIds i).1 with _ | item
            · rw [hb] at hp
              exact ih _ p hp
            · rw [hb] at hp
              rcases List.mem_cons.mp hp with hpe | hpm
              · rw [hpe]
                exact hskf
              · exact ih _ p hpm

/-- Every item the generic loop pushes is tagged with a loop index whose
line passes the skip-classifier. -/
theorem genGo_tag_not_skipped (lines : List (List Char)) (userIds : List String) :
    ∀ (idxs used : List ℕ) (p : ℕ × Item), p ∈ genGo lines userIds idxs used →
      skipLine (lines.getD p.1 []) = false := by
  intro idxs
  induction idxs with
  | nil => intro used p hp; cases hp
  | cons i rest ih =>
      intro used p hp
      rw [genGo] at hp
      by_cases hu : used.contains i
      · rw [if_pos hu] at hp
        exact ih used p hp
      · rw [if_neg hu] at hp
        simp only [] at hp
        by_cases hsk : (skipLine (lines.getD i []) ||
            reTest genSummaryRE (toUpperChars (lines.getD i []))) = true
        · rw [if_pos hsk] at hp
          exact ih used p hp
        · rw [if_neg hsk] at hp
          have hskf : skipLine (lines.getD i []) = false := by
            rcases Bool.or_eq_false_iff.mp (Bool.eq_false_iff.mpr hsk) with ⟨h1, _⟩
            exact h1
          rcases hb : (genBody lines userIds i).1 with _ | item
          · rw [hb] at hp
            exact ih _ p hp
          · rw [hb] at hp
            rcases List.mem_cons.mp hp with hpe | hpm
            · rw [hpe]
              exact hskf
            · exact ih _ p hpm

end Splitly

namespace Splitly

/-- C7: a line matching the weight-calculation pattern
`^[\d.]+\s*lb\s*[@e]/i` (e.g. `2.38 lb @ 1.0 lb /1.12  2.67`) never
yields an item of its own in either the Walmart or the generic parser:
no emitted item is tagged with that line's index.  (When such a line
follows an item-name line, the Walmart parser may use its final price,
but the item is tagged with — derived from — the name line.) -/
theorem weight_calc_line_never_item (lines : List (List Char))
    (userIds : List String) (i : ℕ)
    (hw : reTest skipReWeight (lines.getD i []) = true) :
    (∀ p ∈ parseWalmartAux lines userIds, p.1 ≠ i) ∧
    (∀ p ∈ parseGenericAux lines userIds, p.1 ≠ i) := by
  have hskip : skipLine (lines.getD i []) = true := by
    unfold skipLine
    rw [hw]
    simp
  constructor
  · intro p hp hpi
    have := wmGo_tag_not_skipped lines userIds (List.range lines.length) [] p hp
    rw [hpi, hskip] at this
    cases this
  · intro p hp hpi
    have := genGo_tag_not_skipped lines userIds (List.range lines.length) [] p hp
    rw [hpi, hskip] at this
    cases this

/-- Witness for C7 at Scenario E's calculation line. -/
theorem weight_calc_line_never_item_witness :
    reTest skipReWeight (exWeightLines.getD 1 []) = true ∧
    (∀ p ∈ parseWalmartAux exWeightLines ["A"], p.1 ≠ 1) ∧
    (∀ p ∈ parseGenericAux exWeightLines ["A"], p.1 ≠ 1) := by
  have hw : reTest skipReWeight (exWeightLines.getD 1 []) = true := by
    with_unfolding_all rfl
  exact ⟨hw, (weight_calc_line_never_item exWeightLines ["A"] 1 hw).1,
    (weight_calc_line_never_item exWeightLines ["A"] 1 hw).2⟩

end Splitly

namespace Splitly

/-- The trial loop stops at the first early-exiting trial: trailing
trials are never evaluated and the state at that point is final. -/
theorem recognizeGo_early_exit (post : List TrialData) (t : TrialData)
    (ht : earlyExitTrial t) : ∀ (pre : List TrialData)
    (b : Option TrialData) (k : ℚ) (c : ℕ),
    (∀ u ∈ pre, ¬ earlyExitTrial u) →
    recognizeGo (pre ++ t :: post) b k c =
      ((recognizeGo (pre ++ [t]) b k c).1, c + (pre.length + 1)) := by
  intro pre
  induction pre with
  | nil =>
      intro b k c _
      simp only [List.nil_append]
      rw [recognizeGo, recognizeGo]
      have ht' : t.confidence > 70 ∧ trialPriceCount t.text ≥ 3 ∧
          t.text.length ≥ 100 := ht
      rw [if_pos ht', if_pos ht']
      rfl
  | cons u pre ih =>
      intro b k c hpre
      simp only [List.cons_append]
      rw [recognizeGo, recognizeGo]
      have hu' : ¬ (u.confidence > 70 ∧ trialPriceCount u.text ≥ 3 ∧
          u.text.length ≥ 100) := hpre u (List.mem_cons_self u pre)
      rw [if_neg hu', if_neg hu']
      rw [ih _ _ _ (fun v hv => hpre v (List.mem_cons_of_mem u hv))]
      have harith : c + 1 + (pre.length + 1) = c + (pre.length + 1 + 1) := by omega
      rw [harith]
      rfl

/-- C8 amended: when trial `t` is the first trial meeting the early-exit
condition (confidence > 70, at least 3 price matches, length ≥ 100), the
recognizer evaluates exactly the trials up to and including `t` — it
stops immediately — and returns the best-scoring trial among those, which
need not be `t` itself. -/
theorem early_exit_stops_immediately (pre post : List TrialData)
    (t : TrialData) (hpre : ∀ u ∈ pre, ¬ earlyExitTrial u)
    (ht : earlyExitTrial t) :
    recognizeTrials (pre ++ t :: post) =
      ((recognizeTrials (pre ++ [t])).1, pre.length + 1) ∧
    recognizeText (pre ++ t :: post) = recognizeText (pre ++ [t]) := by
  have h := recognizeGo_early_exit post t ht pre none (-1) 0 hpre
  constructor
  · unfold recognizeTrials
    rw [h]
    norm_num
  · unfold recognizeText recognizeTrials
    rw [h]

/-- Witness for C8 amended: with a strong-but-not-early-exiting first
trial and an early-exiting second trial, the loop stops after trial 2
yet returns trial 1's text and confidence. -/
theorem early_exit_stops_immediately_witness :
    ((∀ u ∈ [exTrial1], ¬ earlyExitTrial u) ∧ earlyExitTrial exTrial2) ∧
    recognizeTrials [exTrial1, exTrial2] =
      ((recognizeTrials [exTrial1, exTrial2]).1, 2) ∧
    (recognizeText [exTrial1, exTrial2]).text = exTrial1.text ∧
    (recognizeText [exTrial1, exTrial2]).confidence = 70 := by
  have h1 : ∀ u ∈ [exTrial1], ¬ earlyExitTrial u := by
    intro u hu
    rw [List.mem_singleton] at hu
    rw [hu]
    unfold earlyExitTrial
    intro hc
    have : ¬ ((exTrial1.confidence : ℚ) > 70) := by
      with_unfolding_all decide
    exact this hc.1
  have h2 : earlyExitTrial exTrial2 := by
    unfold earlyExitTrial
    refine ⟨by with_unfolding_all decide, by with_unfolding_all decide,
      by with_unfolding_all decide⟩
  have happ : [exTrial1, exTrial2] = [exTrial1] ++ exTrial2 :: [] := rfl
  have h := early_exit_stops_immediately [exTrial1] [] exTrial2 h1 h2
  refine ⟨⟨h1, h2⟩, ?_, by with_unfolding_all rfl, by with_unfolding_all rfl⟩
  have h3 := h.1
  rw [← happ] at h3
  have hlen : ([exTrial1] : List TrialData).length + 1 = 2 := rfl
  rw [hlen] at h3
  rw [h3]

end Splitly

namespace Splitly

/-- Soundness of the score encoding: comparing the rational keys
`c·|c|·n` is exactly comparing the real scores
`conf × √len × (1 + 2·priceCount)`. -/
theorem scoreKey_orders_scores (c c' : ℚ) (n n' p p' : ℕ) :
    scoreKey c n p < scoreKey c' n' p' ↔
    (c : ℝ) * Real.sqrt n * (1 + 2 * p) <
      (c' : ℝ) * Real.sqrt n' * (1 + 2 * p') := by
  have hmono : StrictMono (fun x : ℝ => x * |x|) := by
    intro x y hxy
    show x * |x| < y * |y|
    rcases le_or_lt 0 x with hx | hx
    · have hy : 0 < y := lt_of_le_of_lt hx hxy
      rw [abs_of_nonneg hx, abs_of_pos hy]
      exact mul_self_lt_mul_self hx hxy
    · rcases le_or_lt 0 y with hy | hy
      · have h1 : x * |x| < 0 := by
          rw [abs_of_neg hx]
          nlinarith
        have h2 : 0 ≤ y * |y| := by
          rw [abs_of_nonneg hy]
          positivity
        linarith
      · rw [abs_of_neg hx, abs_of_neg hy]
        nlinarith
  have key : ∀ (a : ℝ) (m : ℕ),
      (a * Real.sqrt m) * |a * Real.sqrt m| = a * |a| * m := by
    intro a m
    rw [abs_mul, abs_of_nonneg (Real.sqrt_nonneg _)]
    have : a * Real.sqrt m * (|a| * Real.sqrt m)
        = a * |a| * (Real.sqrt m * Real.sqrt m) := by ring
    rw [this, Real.mul_self_sqrt (by positivity)]
  have hcast : ∀ (d : ℚ) (m q : ℕ), ((scoreKey d m q : ℚ) : ℝ) =
      ((d : ℝ) * (1 + 2 * q)) * |(d : ℝ) * (1 + 2 * q)| * m := by
    intro d m q
    unfold scoreKey
    push_cast
    rw [abs_mul, abs_of_nonneg (show (0 : ℝ) ≤ 1 + 2 * (q : ℝ) by positivity)]
  constructor
  · intro h
    have h' : ((scoreKey c n p : ℚ) : ℝ) < ((scoreKey c' n' p' : ℚ) : ℝ) := by
      exact_mod_cast h
    rw [hcast, hcast] at h'
    rw [← key, ← key] at h'
    have := hmono.lt_iff_lt.mp h'
    calc (c : ℝ) * Real.sqrt n * (1 + 2 * p)
        = ((c : ℝ) * (1 + 2 * p)) * Real.sqrt n := by ring
      _ < ((c' : ℝ) * (1 + 2 * p')) * Real.sqrt n' := this
      _ = (c' : ℝ) * Real.sqrt n' * (1 + 2 * p') := by ring
  · intro h
    have h' : ((c : ℝ) * (1 + 2 * p)) * Real.sqrt n
        < ((c' : ℝ) * (1 + 2 * p')) * Real.sqrt n' := by
      calc ((c : ℝ) * (1 + 2 * p)) * Real.sqrt n
          = (c : ℝ) * Real.sqrt n * (1 + 2 * p) := by ring
        _ < (c' : ℝ) * Real.sqrt n' * (1 + 2 * p') := h
        _ = ((c' : ℝ) * (1 + 2 * p')) * Real.sqrt n' := by ring
    have h2 := hmono.lt_iff_lt.mpr h'
    rw [key, key] at h2
    rw [← hcast, ← hcast] at h2
    exact_mod_cast h2

/-- C8 counterexample: trial 2 meets the early-exit bar (confidence 71 >
70, 3 prices, length 100), the recognizer does stop there, but the
returned text and confidence are trial 1's (a longer, higher-scoring
trial that itself did not early-exit) — not trial 2's. -/
theorem early_exit_result_counterexample :
    earlyExitTrial exTrial2 ∧
    (recognizeText [exTrial1, exTrial2]).text = exTrial1.text ∧
    (recognizeText [exTrial1, exTrial2]).confidence = exTrial1.confidence ∧
    exTrial2.text ≠ exTrial1.text ∧
    exTrial2.confidence ≠ exTrial1.confidence := by
  refine ⟨⟨?_, ?_, ?_⟩, ?_, ?_, ?_, ?_⟩
  · with_unfolding_all decide
  · with_unfolding_all decide
  · with_unfolding_all decide
  · with_unfolding_all rfl
  · with_unfolding_all rfl
  · with_unfolding_all decide
  · with_unfolding_all decide

end Splitly

namespace Splitly

theorem roundedRows_length (b : BillDoc) :
    (roundedRows b).length = b.users.length := by
  unfold roundedRows
  simp

theorem roundedRows_isCent (b : BillDoc) :
    ∀ r ∈ roundedRows b, IsCent r.totalRounded := by
  intro r hr
  unfold roundedRows at hr
  simp only [List.mem_map] at hr
  obtain ⟨r1, ⟨u, hu, rfl⟩, rfl⟩ := hr
  exact isCent_round2 _

theorem firstMaxIdxGo_lt (n : ℕ) : ∀ (l : List ℚ) (i bi : ℕ) (bq : ℚ),
    bi < n → i + l.length ≤ n → firstMaxIdxGo l i bi bq < n := by
  intro l
  induction l with
  | nil => intro i bi bq h1 _; exact h1
  | cons q rest ih =>
      intro i bi bq h1 h2
      rw [firstMaxIdxGo]
      simp only [List.length_cons] at h2
      by_cases hq : q > bq
      · rw [if_pos hq]
        exact ih (i + 1) i q (by omega) (by omega)
      · rw [if_neg hq]
        exact ih (i + 1) bi bq h1 (by omega)

theorem firstMaxIdx_lt (l : List ℚ) (hne : l ≠ []) : firstMaxIdx l < l.length := by
  cases l with
  | nil => exact absurd rfl hne
  | cons q rest =>
      rw [firstMaxIdx]
      exact firstMaxIdxGo_lt (rest.length + 1) rest 1 0 q (by omega) (by omega)

theorem listModify_map (l : List α) (j : ℕ) (f : α → α) (g : α → β) (h : β → β)
    (hfg : ∀ x, g (f x) = h (g x)) :
    (listModify l j f).map g = listModify (l.map g) j h := by
  induction l generalizing j with
  | nil => rfl
  | cons x rest ih =>
      cases j with
      | zero => simp [listModify, hfg]
      | succ j' => simp [listModify, ih j']

theorem sum_listModify_round2 (d : ℚ) (hd : IsCent d) :
    ∀ (l : List ℚ) (j : ℕ), j < l.length → (∀ q ∈ l, IsCent q) →
    (listModify l j (fun t => round2 (t + d))).sum = l.sum + d := by
  intro l
  induction l with
  | nil => intro j hj _; cases hj
  | cons q rest ih =>
      intro j hj hall
      cases j with
      | zero =>
          simp only [listModify, List.sum_cons]
          rw [round2_eq_self ((hall q (List.mem_cons_self q rest)).add hd)]
          ring
      | succ j' =>
          simp only [listModify, List.sum_cons]
          rw [ih j' (by simpa using hj)
            (fun x hx => hall x (List.mem_cons_of_mem q hx))]
          ring

theorem correctedRows_sum (b : BillDoc) (hu : b.users ≠ [])
    (hT : IsCent (billTotalOf b)) :
    ((correctedRows b).map (fun r => r.totalRounded)).sum = billTotalOf b := by
  have hcl : ∀ q ∈ (roundedRows b).map (fun r => r.totalRounded), IsCent q := by
    intro q hq
    rcases List.mem_map.mp hq with ⟨r, hr, rfl⟩
    exact roundedRows_isCent b r hr
  have hS : IsCent ((roundedRows b).map (fun r => r.totalRounded)).sum :=
    isCent_sum_list hcl
  have hrne : roundedRows b ≠ [] := by
    intro hnil
    have := roundedRows_length b
    rw [hnil] at this
    exact hu (List.length_eq_zero.mp this.symm)
  unfold correctedRows
  simp only []
  rw [round2_eq_self hS, round2_eq_self (hT.sub hS)]
  by_cases hcond : |billTotalOf b -
      ((roundedRows b).map (fun r => r.totalRounded)).sum| ≥ 1 / 100
  · rw [if_pos hcond]
    have hmm := listModify_map (roundedRows b)
      (firstMaxIdx ((roundedRows b).map (fun r => r.totalRaw - (⌊r.totalRaw⌋ : ℚ))))
      (fun r => { r with totalRounded := round2 (r.totalRounded +
        (billTotalOf b - ((roundedRows b).map (fun r => r.totalRounded)).sum)) })
      (fun r => r.totalRounded)
      (fun t => round2 (t + (billTotalOf b -
        ((roundedRows b).map (fun r => r.totalRounded)).sum)))
      (fun x => rfl)
    rw [hmm]
    have hj : firstMaxIdx ((roundedRows b).map
        (fun r => r.totalRaw - (⌊r.totalRaw⌋ : ℚ))) <
        ((roundedRows b).map (fun r => r.totalRounded)).length := by
      rw [List.length_map]
      have h1 := firstMaxIdx_lt ((roundedRows b).map
        (fun r => r.totalRaw - (⌊r.totalRaw⌋ : ℚ))) (by
          intro hnil
          exact hrne (List.map_eq_nil_iff.mp hnil))
      rw [List.length_map] at h1
      exact h1
    rw [sum_listModify_round2 _ (hT.sub hS) _ _ hj hcl]
    ring
  · rw [if_neg hcond]
    have hz : billTotalOf b -
        ((roundedRows b).map (fun r => r.totalRounded)).sum = 0 :=
      (hT.sub hS).eq_zero_of_abs_lt (by linarith [not_le.mp hcond])
    linarith [hz]

theorem map_exactShare_update (ls : List Row) (F : Row → ℚ) :
    (ls.map (fun r => { r with exactShare := F r })).map
      (fun r => r.totalRounded) = ls.map (fun r => r.totalRounded) := by
  rw [List.map_map]
  exact List.map_congr_left (fun x _ => rfl)

theorem map_sharePercentage_update (ls : List Row) (F : ℕ × Row → ℤ) :
    (ls.enum.map (fun p => { p.2 with sharePercentageInt := F p })).map
      (fun r => r.totalRounded) = ls.map (fun r => r.totalRounded) := by
  rw [List.map_map]
  have h1 : ((fun r : Row => r.totalRounded) ∘
      (fun p : ℕ × Row => { p.2 with sharePercentageInt := F p }))
      = (fun p : ℕ × Row => p.2.totalRounded) := rfl
  rw [h1]
  have h2 : (fun p : ℕ × Row => p.2.totalRounded)
      = (fun r : Row => r.totalRounded) ∘ Prod.snd := rfl
  rw [h2, ← List.map_map, List.enum_map_snd]

theorem percentRows_totalRounded (b : BillDoc) :
    (percentRows b).map (fun r => r.totalRounded) =
    (correctedRows b).map (fun r => r.totalRounded) := by
  unfold percentRows
  simp only []
  rw [map_sharePercentage_update]
  split
  all_goals split
  all_goals
    first
      | rw [map_exactShare_update, map_exactShare_update]
      | rw [map_exactShare_update]

end Splitly

namespace Splitly

/-- C1: for any bill with at least one user (and a stored
`calculatedWithTax`, when present, that is a whole number of cents, as
`persistParsedReceipt` always stores), the per-participant amounts of
the final expense summary — the `totalRounded` column produced by
`computeExpenseSummary` followed by the final-rounding step of
`finalPerUserRows` — sum exactly, to the cent, to the bill's reported
grand total `billTotalOf`. -/
theorem per_user_rows_sum_to_bill_total (b : BillDoc) (hu : b.users ≠ [])
    (hc : ∀ v, b.calculatedWithTax = some v → IsCent v) :
    ((finalPerUserRows b).map (fun r => r.totalRounded)).sum = billTotalOf b := by
  have hT : IsCent (billTotalOf b) := by
    unfold billTotalOf
    cases hv : b.calculatedWithTax with
    | some v => exact hc v hv
    | none => exact isCent_round2 _
  unfold finalPerUserRows
  have hne : b.users.isEmpty = false := by
    cases hus : b.users with
    | nil => exact absurd hus hu
    | cons a t => rfl
  rw [hne]
  simp only [Bool.false_eq_true, if_false]
  rw [percentRows_totalRounded]
  exact correctedRows_sum b hu hT

/-- Witness for C1 at the 0.10-split-three-ways bill: the three rounded
0.03 rows receive the residual cent and sum to the 0.10 total. -/
theorem per_user_rows_sum_to_bill_total_witness :
    (exThirdsBill.users ≠ [] ∧
      ((finalPerUserRows exThirdsBill).map (fun r => r.totalRounded)).sum =
        billTotalOf exThirdsBill) ∧
    billTotalOf exThirdsBill = 1 / 10 ∧
    (finalPerUserRows exThirdsBill).map (fun r => r.totalRounded) =
      [4 / 100, 3 / 100, 3 / 100] := by
  refine ⟨⟨by simp [exThirdsBill], ?_⟩, by with_unfolding_all rfl,
    by with_unfolding_all rfl⟩
  exact per_user_rows_sum_to_bill_total exThirdsBill (by simp [exThirdsBill])
    (fun v hv => by simp [exThirdsBill] at hv)

end Splitly
